import Mathlib

/-!
Verification of the remote-mcp-server-authless core: the graph document engine
(contract validation, percentage propagation, squishing, patch pipeline) and the
hierarchical summarization coordinator (requirement planning, reuse/invalidation,
ancestry walking).  JavaScript objects used as string-keyed maps are embedded as
association lists that preserve key insertion order; JS numbers are embedded as
rationals; thrown `Error`s are embedded as `Except` with structured error values
mirroring the distinct `throw` sites.  Recursion that the source delegates to the
JS call stack is given an explicit fuel parameter.
-/

namespace LifeCurrents

/-! ### Kernel-computable string primitives

The JS string methods the source relies on (`trim`, `toLowerCase`,
`toUpperCase`, `slice`, `startsWith`, `split`) are re-implemented over the
character list underlying `String`, so that concrete runs of the embedded
functions evaluate inside the kernel.  `trim` is modelled on the ASCII
whitespace the payloads use. -/

def wsChar (c : Char) : Bool := c = ' ' || c = '\t' || c = '\n' || c = '\r'

/-- `String.prototype.trim`. -/
def jsTrim (s : String) : String :=
  ⟨((s.data.dropWhile wsChar).reverse.dropWhile wsChar).reverse⟩

def lowerChar (c : Char) : Char :=
  if 'A' ≤ c && c ≤ 'Z' then Char.ofNat (c.toNat + 32) else c

def upperChar (c : Char) : Char :=
  if 'a' ≤ c && c ≤ 'z' then Char.ofNat (c.toNat - 32) else c

/-- `String.prototype.toLowerCase` (ASCII). -/
def jsToLower (s : String) : String := ⟨s.data.map lowerChar⟩

/-- `String.prototype.toUpperCase` (ASCII). -/
def jsToUpper (s : String) : String := ⟨s.data.map upperChar⟩

/-- `String.prototype.slice(0, n)`. -/
def jsTake (s : String) (n : Nat) : String := ⟨s.data.take n⟩

/-- Drop the first `n` characters. -/
def jsDrop (s : String) (n : Nat) : String := ⟨s.data.drop n⟩

/-- `String.prototype.startsWith`. -/
def jsStartsWith (s pre : String) : Bool := pre.data.isPrefixOf s.data

def splitListOn (sep : Char) : List Char → List (List Char)
  | [] => [[]]
  | c :: cs =>
    if c = sep then [] :: splitListOn sep cs
    else
      match splitListOn sep cs with
      | [] => [[c]]
      | l :: ls => (c :: l) :: ls

/-- `String.prototype.split("\n")`. -/
def jsSplitLines (s : String) : List String :=
  (splitListOn '\n' s.data).map String.mk

/-- Association-list lookup, modelling JS object property access `obj[key]`. -/
def lookupA {κ α : Type} [DecidableEq κ] : List (κ × α) → κ → Option α
  | [], _ => none
  | (k, v) :: rest, key => if k = key then some v else lookupA rest key

/-- Append `v` to the bucket of `key`, creating the bucket at the end when the key is
new.  Models `if (!map[k]) map[k] = []; map[k].push(v)` on a JS object, preserving
key insertion order. -/
def pushEntry {κ α : Type} [DecidableEq κ] : List (κ × List α) → κ → α → List (κ × List α)
  | [], key, v => [(key, [v])]
  | (k, vs) :: rest, key, v =>
    if k = key then (k, vs ++ [v]) :: rest else (k, vs) :: pushEntry rest key v

/-- Effectful map over a list in `Except`, stopping at the first error: the behaviour
of a JS `for … of` loop whose body may `throw`. -/
def mapME {ε α β : Type} (f : α → Except ε β) : List α → Except ε (List β)
  | [] => .ok []
  | x :: xs =>
    match f x with
    | .error e => .error e
    | .ok y =>
      match mapME f xs with
      | .error e => .error e
      | .ok ys => .ok (y :: ys)

/-- Stable insertion used by `sortLe`. -/
def insertLe {α : Type} (le : α → α → Bool) (x : α) : List α → List α
  | [] => [x]
  | y :: l => if le y x then y :: insertLe le x l else x :: y :: l

/-- Stable sort by a boolean `≤` test, modelling JS `Array.prototype.sort` with a
numeric comparator (stable since ES2019). -/
def sortLe {α : Type} (le : α → α → Bool) (l : List α) : List α :=
  l.foldr (insertLe le) []

/-! ## Graph document data model (`src/unnamed/part_003`)

The `Node` interface.  Raw payloads reaching `normalizeNode` may omit `type`,
`status`, `parents` or `graph`, hence the `Option` fields; the embedding types the
payloads (strings and string lists), so the source's `throw` branches for
non-object nodes, non-string statuses, non-array parents and non-string parent
entries are outside the model's input space.  `percentage_of_parent` (a JS number)
is a rational. -/

structure Node where
  type : Option String := none
  label : String := ""
  status : Option String := none
  parents : Option (List String) := none
  graph : Option String := none
  percentage_of_parent : ℚ := 0
  createdAt : String := ""
  scheduled_start : Option String := none
  true_percentage_of_total : Option ℚ := none
deriving Repr, DecidableEq

/-- One constructor per distinct `throw new Error(...)` site of the validator and
the percentage propagator.  `recursionLimit` stands for exhaustion of the explicit
fuel that models the JS call stack. -/
inductive VError where
  | invalidNodeType (nodeId rawType : String)
  | invalidStatus (nodeId status : String)
  | missingGraph (nodeId : String)
  | emptyGraph (nodeId : String)
  | selfContainment (nodeId : String)
  | unknownGraphContainer (nodeId graphRef : String)
  | recursionLimit (nodeId : String)
deriving Repr, DecidableEq

def ALLOWED_NODE_TYPE : String := "objectiveNode"

def ALLOWED_STATUSES : List String := ["not-started", "in-progress", "completed"]

def DEFAULT_STATUS : String := "not-started"

/-- The `type` block of `normalizeNode`: case-insensitive aliasing of the canonical
literal, default on a falsy value (absent or empty string), otherwise the type must
already be the canonical literal. -/
def normalizeType (nodeId : String) (rawType0 : Option String) : Except VError String :=
  let rawType1 : Option String :=
    match rawType0 with
    | some s => if jsToLower (jsTrim s) = "objectivenode" then some ALLOWED_NODE_TYPE else some s
    | none => none
  let rawType2 : String :=
    match rawType1 with
    | none => ALLOWED_NODE_TYPE
    | some s => if s = "" then ALLOWED_NODE_TYPE else s
  if rawType2 = ALLOWED_NODE_TYPE then .ok ALLOWED_NODE_TYPE
  else .error (.invalidNodeType nodeId rawType2)

/-- The `status` block of `normalizeNode`: `undefined`/`null`/`''` are left alone,
a trimmed member of the enum is kept, the legacy value `pending` maps to the
default status, anything else is rejected. -/
def normalizeStatus (nodeId : String) (status : Option String) : Except VError (Option String) :=
  match status with
  | none => .ok none
  | some s =>
    if s = "" then .ok (some "")
    else
      let trimmed := jsTrim s
      if ALLOWED_STATUSES.contains trimmed then .ok (some trimmed)
      else if jsToLower trimmed = "pending" then .ok (some DEFAULT_STATUS)
      else .error (.invalidStatus nodeId trimmed)

/-- The `parents` block of `normalizeNode`: default empty, entries trimmed, empty
entries dropped. -/
def normalizeParents (parents : Option (List String)) : List String :=
  match parents with
  | none => []
  | some ps => (ps.map jsTrim).filter (fun p => p ≠ "")

/-- The `graph` block of `normalizeNode`: mandatory, non-empty after trimming, never
the node's own id, `"main"` kept literally, and any other value must be a member of
`validNodeIds` when the caller supplies that set. -/
def normalizeGraph (nodeId : String) (validNodeIds : Option (List String))
    (graph : Option String) : Except VError String :=
  match graph with
  | none => .error (.missingGraph nodeId)
  | some g =>
    let trimmedGraph := jsTrim g
    if trimmedGraph = "" then .error (.emptyGraph nodeId)
    else if trimmedGraph = nodeId then .error (.selfContainment nodeId)
    else if trimmedGraph = "main" then .ok "main"
    else
      match validNodeIds with
      | some ids =>
        if ids.contains trimmedGraph then .ok trimmedGraph
        else .error (.unknownGraphContainer nodeId trimmedGraph)
      | none => .ok trimmedGraph

/-- `normalizeNode` of `src/unnamed/part_003`.  The source mutates the node in
place; the embedding returns the updated record. -/
def normalizeNode (nodeId : String) (node : Node)
    (validNodeIds : Option (List String) := none) : Except VError Node := do
  let t ← normalizeType nodeId node.type
  let s ← normalizeStatus nodeId node.status
  let ps := normalizeParents node.parents
  let g ← normalizeGraph nodeId validNodeIds node.graph
  .ok { node with type := some t, status := s, parents := some ps, graph := some g }

structure Viewport where
  x : ℚ := 0
  y : ℚ := 0
  zoom : ℚ := 1
deriving Repr, DecidableEq

/-- The `GraphDocument` interface.  `historical_progress` is an untyped record the
core never reads or writes on the validation/patch path and is omitted. -/
structure GraphDocument where
  nodes : List (String × Node)
  viewport : Viewport := {}
deriving Repr, DecidableEq

/-- `enforceGraphContractOnDocument`: normalize every node against the set of node
ids present in the document.  The defensive branches for a non-object document or a
missing `nodes` record are outside the typed model. -/
def enforceGraphContractOnDocument (document : GraphDocument) :
    Except VError GraphDocument :=
  let validNodeIds := document.nodes.map Prod.fst
  match mapME (fun p => do
      let n ← normalizeNode p.1 p.2 (some validNodeIds)
      .ok (p.1, n)) document.nodes with
  | .error e => .error e
  | .ok nodes => .ok { document with nodes := nodes }

/-! ## Percentage propagation (`calculateTruePercentages`)

The source memoizes `getTruePercentage` per node id and mutates the shared node
objects in place (normalization first, then the derived field).  The value model
below recomputes instead of memoizing — identical results, since `normalizeNode`
is deterministic, idempotent on its own output, and never changes
`percentage_of_parent` — and takes explicit fuel for the recursion the source
entrusts to the JS call stack (a cyclic `parents` graph overflows the JS stack;
here it exhausts the fuel). -/

/-- The inner `getTruePercentage`: a missing node contributes 0; a node without
parents contributes `percentage_of_parent` (the source's `|| 0` only matters for
non-number payloads, which the typed embedding excludes); otherwise the node sums
`(percentage_of_parent / 100) * getTruePercentage(parent)` over its normalized
parent list. -/
def getTruePercentage (nodes : List (String × Node)) (validNodeIds : Option (List String)) :
    Nat → String → Except VError ℚ
  | 0, nodeId => .error (.recursionLimit nodeId)
  | fuel + 1, nodeId =>
    match lookupA nodes nodeId with
    | none => .ok 0
    | some node =>
      match normalizeNode nodeId node validNodeIds with
      | .error e => .error e
      | .ok n =>
        match n.parents.getD [] with
        | [] => .ok node.percentage_of_parent
        | ps =>
          ps.foldlM (fun acc parentId => do
            let parentPercentage ← getTruePercentage nodes validNodeIds fuel parentId
            .ok (acc + node.percentage_of_parent / 100 * parentPercentage)) 0

/-- `calculateTruePercentages`: every node of the map ends up normalized with
`true_percentage_of_total` set to its recursive contribution. -/
def calculateTruePercentages (nodes : List (String × Node))
    (validNodeIds : Option (List String)) (fuel : Nat) :
    Except VError (List (String × Node)) :=
  mapME (fun p => do
    let v ← getTruePercentage nodes validNodeIds fuel p.1
    let n ← normalizeNode p.1 p.2 validNodeIds
    .ok (p.1, { n with true_percentage_of_total := some v })) nodes

/-! ## Percentage squishing and the patch pipeline (`patch_graph_document`) -/

/-- `buildParentToChildrenMap`: parent id → list of child ids, in document node
order, bucket keys in first-appearance order. -/
def buildParentToChildrenMap (document : GraphDocument) : List (String × List String) :=
  document.nodes.foldl (fun map p =>
    (p.2.parents.getD []).foldl (fun map parentId => pushEntry map parentId p.1) map) []

/-- Overwrite `percentage_of_parent` of node `childId` when present; otherwise do
nothing (`if (patchedDoc.nodes[childId])`). -/
def setChildPercentage (doc : GraphDocument) (childId : String) (p : ℚ) : GraphDocument :=
  { doc with nodes := doc.nodes.map (fun q =>
      if q.1 = childId then (q.1, { q.2 with percentage_of_parent := p }) else q) }

/-- The parents whose child count increased relative to the pre-patch document,
paired with their current child lists (`affectedParents`, kept with the
`newParentMap` bucket the source re-reads per parent). -/
def squishAffected (originalDoc patchedDoc : GraphDocument) : List (String × List String) :=
  let originalParentMap := buildParentToChildrenMap originalDoc
  (buildParentToChildrenMap patchedDoc).filter (fun q =>
    ((lookupA originalParentMap q.1).getD []).length < q.2.length)

/-- The `affectedParents.forEach` loop: set every current child of each affected
parent to `100 / childCount`. -/
def squishFold : GraphDocument → List (String × List String) → GraphDocument
  | doc, [] => doc
  | doc, q :: affected =>
    squishFold
      (if 0 < q.2.length then
        q.2.foldl (fun d childId =>
          setChildPercentage d childId (100 / (q.2.length : ℚ))) doc
      else doc) affected

/-- The squishing block of `patch_graph_document`: for every parent whose child
count increased relative to the pre-patch document, set every current child's
`percentage_of_parent` to `100 / childCount`. -/
def applySquish (originalDoc patchedDoc : GraphDocument) : GraphDocument :=
  squishFold patchedDoc (squishAffected originalDoc patchedDoc)

/-- `documentsAreEqual` compares `JSON.stringify` output; on the embedded
documents this is structural equality. -/
def documentsAreEqual (a b : GraphDocument) : Bool := a == b

/-- The post-`applyPatch` validation/recomputation steps of
`patch_graph_document`: whole-document contract enforcement followed by
percentage recomputation against the patched document's id set. -/
def processPatchedDocument (patchedDoc0 : GraphDocument) (fuel : Nat) :
    Except VError GraphDocument :=
  match enforceGraphContractOnDocument patchedDoc0 with
  | .error e => .error e
  | .ok patchedDoc =>
    match calculateTruePercentages patchedDoc.nodes
        (some (patchedDoc.nodes.map Prod.fst)) fuel with
    | .error e => .error e
    | .ok nodes => .ok { patchedDoc with nodes := nodes }

/-- Outcome of one `patch_graph_document` invocation: the returned document (or
the error caught at the tool boundary), and whether `updateGraphDocument` /
`createGraphDocumentVersion` were called. -/
structure PatchOutcome where
  result : Except VError GraphDocument
  persisted : Bool
  versionCreated : Bool
deriving Repr

/-- `patch_graph_document` after `applyPatch`: the RFC 6902 application itself is
performed by the external `fast-json-patch` library on a deep copy, so the
pipeline is modelled from its two inputs — `originalDoc` (the pre-patch deep
copy) and `patchedDoc0` (the library's output).  Validation or recomputation
failure aborts before any persistence; otherwise squishing runs and persistence
plus version creation happen exactly when the squished result differs from the
pre-patch document.  (The hierarchical presentation wrapper of the response is
omitted.) -/
def patchPipeline (originalDoc patchedDoc0 : GraphDocument) (fuel : Nat) : PatchOutcome :=
  match processPatchedDocument patchedDoc0 fuel with
  | .error e => { result := .error e, persisted := false, versionCreated := false }
  | .ok processed =>
    let squished := applySquish originalDoc processed
    if documentsAreEqual originalDoc squished then
      { result := .ok squished, persisted := false, versionCreated := false }
    else
      { result := .ok squished, persisted := true, versionCreated := true }

/-! ## Reference semantics of `calculateTruePercentages`

`const nodesWithTruePercentage = { ...nodes }` copies only the key → object-reference
table; the node objects themselves are shared with the caller's map, and the
subsequent writes (`normalizeNode`'s field rewrites and the
`true_percentage_of_total` assignment) go through those shared references.  To
state this, node objects are given an explicit heap: a map binds each id to a
reference, the heap binds references to node records. -/

abbrev Heap := List (Nat × Node)

abbrev NodeRefMap := List (String × Nat)

/-- Dereference a node map against a heap, yielding the id → node view that the
pure `getTruePercentage` consumes. -/
def heapNodes (heap : Heap) (map : NodeRefMap) : List (String × Node) :=
  map.filterMap (fun p => (lookupA heap p.2).map (fun n => (p.1, n)))

/-- Write a node record through a reference: the in-place mutation of a shared JS
object. -/
def heapUpdate (heap : Heap) (r : Nat) (n : Node) : Heap :=
  heap.map (fun q => if q.1 = r then (q.1, n) else q)

/-- One iteration of the `for (const nodeId in nodesWithTruePercentage)` loop:
dereference the shared node object, compute its percentage against the current
heap state, and write the normalized record with `true_percentage_of_total` back
through the reference. -/
def calcHeapStep (validNodeIds : Option (List String)) (fuel : Nat)
    (nodesWithTruePercentage : NodeRefMap) (h : Heap) (p : String × Nat) :
    Except VError Heap :=
  match lookupA h p.2 with
  | none => .ok h
  | some node => do
    let v ← getTruePercentage (heapNodes h nodesWithTruePercentage) validNodeIds fuel p.1
    let n ← normalizeNode p.1 node validNodeIds
    .ok (heapUpdate h p.2 { n with true_percentage_of_total := some v })

/-- `calculateTruePercentages` with the object graph explicit.  The returned map
is `nodes` itself — the spread copied only the reference table — while the heap
carries the field writes performed through the shared references. -/
def calculateTruePercentagesHeap (heap : Heap) (nodes : NodeRefMap)
    (validNodeIds : Option (List String)) (fuel : Nat) :
    Except VError (NodeRefMap × Heap) :=
  let nodesWithTruePercentage := nodes
  match nodesWithTruePercentage.foldlM
      (calcHeapStep validNodeIds fuel nodesWithTruePercentage) heap with
  | .error e => .error e
  | .ok heap1 => .ok (nodesWithTruePercentage, heap1)

/-! ## Calendar arithmetic (`TimeHelper`, `src/unnamed/part_002`)

Instants are milliseconds since the Unix epoch (`Int`), matching `Date.getTime()`.
The source resolves the zone offset of each instant through `Intl`; the model
fixes one offset per helper (a fixed-offset zone — exact for `"UTC"`, the default,
and for any zone throughout a transition-free window), under which
`getLocalComponents` followed by `makeZonedDate(y, m, d, 0, 0)` is precisely
flooring the shifted instant to a day boundary and shifting back.  Civil (year,
month, day) conversions use the standard era-based algorithms that `Date`'s UTC
accessors implement. -/

def MS_PER_MINUTE : Int := 60 * 1000

def MS_PER_DAY : Int := 24 * 60 * 60 * 1000

/-- Days since epoch → civil `(year, month, day)` (proleptic Gregorian), as
`Date.getUTCFullYear/Month/Date` computes. -/
def civilFromDays (z0 : Int) : Int × Int × Int :=
  let z := z0 + 719468
  let era := (if 0 ≤ z then z else z - 146096).fdiv 146097
  let doe := z - era * 146097
  let yoe := (doe - doe.fdiv 1460 + doe.fdiv 36524 - doe.fdiv 146096).fdiv 365
  let y := yoe + era * 400
  let doy := doe - (365 * yoe + yoe.fdiv 4 - yoe.fdiv 100)
  let mp := (5 * doy + 2).fdiv 153
  let d := doy - (153 * mp + 2).fdiv 5 + 1
  let m := mp + (if mp < 10 then 3 else -9)
  (if m ≤ 2 then y + 1 else y, m, d)

/-- Civil `(year, month, day)` → days since epoch, inverse of `civilFromDays`. -/
def daysFromCivil (y0 m d : Int) : Int :=
  let y := if m ≤ 2 then y0 - 1 else y0
  let era := (if 0 ≤ y then y else y - 399).fdiv 400
  let yoe := y - era * 400
  let mp := (m + 9).emod 12
  let doy := (153 * mp + 2).fdiv 5 + d - 1
  let doe := yoe * 365 + yoe.fdiv 4 - yoe.fdiv 100 + doy
  era * 146097 + doe - 719468

structure TimeHelper where
  offsetMinutes : Int
deriving Repr, DecidableEq

namespace TimeHelper

def offsetMs (h : TimeHelper) : Int := h.offsetMinutes * MS_PER_MINUTE

/-- `toLocalDate`: shift the instant by the zone offset. -/
def toLocal (h : TimeHelper) (t : Int) : Int := t + h.offsetMs

/-- Local calendar day index of an instant. -/
def localDays (h : TimeHelper) (t : Int) : Int := (h.toLocal t).fdiv MS_PER_DAY

/-- Local civil components of an instant. -/
def localCivil (h : TimeHelper) (t : Int) : Int × Int × Int :=
  civilFromDays (h.localDays t)

/-- `makeZonedDate(y, m, d, 0, 0)`: local midnight of the given civil date (with a
fixed offset the DST re-probe of the source is the identity). -/
def makeZonedMidnight (h : TimeHelper) (y m d : Int) : Int :=
  daysFromCivil y m d * MS_PER_DAY - h.offsetMs

/-- `startOfDay`: local midnight of the instant's local day.  Extracting the local
civil date and rebuilding local midnight floors the shifted instant to a multiple
of a day, so the model uses the floor form directly. -/
def startOfDay (h : TimeHelper) (t : Int) : Int :=
  h.localDays t * MS_PER_DAY - h.offsetMs

/-- `addDays`: plain 24-hour arithmetic on the instant. -/
def addDays (t : Int) (days : Int) : Int := t + days * MS_PER_DAY

/-- `getLocalDayOfWeek` (`getUTCDay` of the shifted instant): 0 = Sunday; the epoch
day was a Thursday. -/
def localDayOfWeek (h : TimeHelper) (t : Int) : Int := (h.localDays t + 4).emod 7

/-- `startOfWeek`: back up from the day's start to the most recent Sunday. -/
def startOfWeek (h : TimeHelper) (t : Int) : Int :=
  let start := h.startOfDay t
  addDays start (-(h.localDayOfWeek start))

/-- `startOfMonth`: local midnight of the first of the instant's local month. -/
def startOfMonth (h : TimeHelper) (t : Int) : Int :=
  let c := h.localCivil t
  h.makeZonedMidnight c.1 c.2.1 1

/-- `startOfNextMonth`. -/
def startOfNextMonth (h : TimeHelper) (t : Int) : Int :=
  let c := h.localCivil t
  if 12 < c.2.1 + 1 then h.makeZonedMidnight (c.1 + 1) 1 1
  else h.makeZonedMidnight c.1 (c.2.1 + 1) 1

end TimeHelper

/-- `estimateTokenCount`: characters of the trimmed text divided by four, rounded
up, at least one when non-empty. -/
def estimateTokenCount (text : String) : Nat :=
  let normalized := jsTrim text
  if normalized.length = 0 then 0
  else max 1 ((normalized.length + 3) / 4)

/-! ## Summarization coordinator (`src/src/summaries/service.ts`) -/

/-- A row of `conversation_messages` as the coordinator consumes it after the
ancestry fetch.  `content` is typed as text (the `normalizeContent` coercions for
structured payloads are then the identity) and `created_at` as an instant
(`Date.parse` of the stored ISO string). -/
structure MessageRec where
  id : String
  created_at : Int
  role : String := ""
  content : String := ""
deriving Repr, DecidableEq

/-- `ensureChronological`: stable sort by `created_at`. -/
def ensureChronological (items : List MessageRec) : List MessageRec :=
  sortLe (fun a b => a.created_at ≤ b.created_at) items

/-- `groupMessagesByDay`: bucket the branch messages by the local start of their
day.  Buckets are keyed by the day-start instant (the source's `safeISO` key is an
injective rendering of it). -/
def groupMessagesByDay (helper : TimeHelper) (messages : List MessageRec) :
    List (Int × List MessageRec) :=
  messages.foldl (fun dayMap message =>
    pushEntry dayMap (helper.startOfDay message.created_at) message) []

inductive SummaryLevel where
  | DAY
  | WEEK
  | MONTH
deriving Repr, DecidableEq

/-- One entry of the requirement plan.  `dayKeys` is populated for WEEK/MONTH
requirements, `messages` for DAY requirements; the human-readable labels of the
source are presentation strings built from `Intl` formatting and are not
modelled. -/
structure Requirement where
  level : SummaryLevel
  periodStart : Int
  periodEnd : Int
  dayKeys : List Int := []
  messages : List MessageRec := []
deriving Repr, DecidableEq

structure RequirementSet where
  days : List Requirement
  weeks : List Requirement
  months : List Requirement
  ordered : List Requirement
  yesterday : Option Requirement
deriving Repr, DecidableEq

/-- `[...dayMap.keys()].sort()` — the source sorts the ISO-string keys, whose
lexicographic order on canonical timestamps is chronological. -/
def sortedDayKeysOf (dayMap : List (Int × List MessageRec)) : List Int :=
  sortLe (fun a b => a ≤ b) (dayMap.map Prod.fst)

/-- The first loop of `buildRequirements`: one DAY requirement per day key
strictly before today. -/
def dayReqsOf (dayMap : List (Int × List MessageRec)) (todayStart : Int) :
    List Requirement :=
  (sortedDayKeysOf dayMap).filterMap (fun key =>
    if todayStart ≤ key then none
    else some { level := .DAY, periodStart := key, periodEnd := TimeHelper.addDays key 1,
                dayKeys := [key],
                messages := ensureChronological ((lookupA dayMap key).getD []) })

/-- The `weekDayKeys` grouping loop. -/
def weekBucketsOf (helper : TimeHelper) (dayMap : List (Int × List MessageRec))
    (todayStart : Int) : List (Int × List Int) :=
  (sortedDayKeysOf dayMap).foldl (fun m key =>
    if todayStart ≤ key then m
    else pushEntry m (helper.startOfWeek key) key) []

/-- The `monthDayKeys` grouping loop. -/
def monthBucketsOf (helper : TimeHelper) (dayMap : List (Int × List MessageRec))
    (todayStart : Int) : List (Int × List Int) :=
  (sortedDayKeysOf dayMap).foldl (fun m key =>
    if todayStart ≤ key then m
    else pushEntry m (helper.startOfMonth key) key) []

/-- `buildRequirements`: DAY requirements cover the keys strictly before today,
with the key equal to `yesterdayStart` split off as the `yesterday` anchor and
the rest kept only from `currentWeekStart` on; WEEK requirements cover whole
weeks strictly before the current week and no earlier than the current month's
start; MONTH requirements cover whole months strictly before the current month;
`ordered` is months, weeks and days each ascending, and the yesterday
requirement appended last. -/
def buildRequirements (helper : TimeHelper) (dayMap : List (Int × List MessageRec))
    (todayStart yesterdayStart currentWeekStart currentMonthStart : Int) :
    RequirementSet :=
  let dayReqs := dayReqsOf dayMap todayStart
  let yesterdayRequirement := dayReqs.find? (fun r => r.periodStart = yesterdayStart)
  let days := dayReqs.filter (fun r =>
    ¬ r.periodStart = yesterdayStart ∧ currentWeekStart ≤ r.periodStart)
  let weeks : List Requirement :=
    (weekBucketsOf helper dayMap todayStart).filterMap (fun q =>
      if currentWeekStart ≤ q.1 then none
      else if q.1 < currentMonthStart then none
      else some { level := .WEEK, periodStart := q.1,
                  periodEnd := TimeHelper.addDays q.1 7,
                  dayKeys := sortLe (fun a b => a ≤ b) q.2 })
  let months : List Requirement :=
    (monthBucketsOf helper dayMap todayStart).filterMap (fun q =>
      if currentMonthStart ≤ q.1 then none
      else some { level := .MONTH, periodStart := q.1,
                  periodEnd := helper.startOfNextMonth q.1,
                  dayKeys := sortLe (fun a b => a ≤ b) q.2 })
  let monthsSorted := sortLe (fun a b => a.periodStart ≤ b.periodStart) months
  let weeksSorted := sortLe (fun a b => a.periodStart ≤ b.periodStart) weeks
  let daysSorted := sortLe (fun a b => a.periodStart ≤ b.periodStart) days
  let ordered := monthsSorted ++ weeksSorted ++ daysSorted ++
    (match yesterdayRequirement with
     | some y => [y]
     | none => [])
  { days := daysSorted, weeks := weeksSorted, months := monthsSorted,
    ordered := ordered, yesterday := yesterdayRequirement }

/-- The per-day grouping of `buildContext`, with the yesterday bucket forced to
exist (`if (!dayMap.has(yesterdayKey)) dayMap.set(yesterdayKey, [])`). -/
def forcedDayMap (helper : TimeHelper) (messages : List MessageRec)
    (yesterdayStart : Int) : List (Int × List MessageRec) :=
  let dayMap0 := groupMessagesByDay helper (ensureChronological messages)
  if (lookupA dayMap0 yesterdayStart).isSome then dayMap0
  else dayMap0 ++ [(yesterdayStart, [])]

/-- The slice of `buildContext` the claims depend on: reference boundaries from
the branch head's timestamp, the ancestry id set, the per-day grouping with the
yesterday bucket forced to exist, and the requirement plan. -/
structure ConversationContext where
  currentMessage : MessageRec
  todayStart : Int
  todayEnd : Int
  yesterdayStart : Int
  currentWeekStart : Int
  currentMonthStart : Int
  ancestryIds : List String
  requirements : RequirementSet
deriving Repr, DecidableEq

/-- `buildContext`; `none` models the throw on an empty branch. -/
def buildContext (helper : TimeHelper) (messages : List MessageRec) :
    Option ConversationContext :=
  match messages.getLast? with
  | none => none
  | some currentMessage =>
    let todayStart := helper.startOfDay currentMessage.created_at
    let todayEnd := TimeHelper.addDays todayStart 1
    let yesterdayStart := TimeHelper.addDays todayStart (-1)
    let currentWeekStart := helper.startOfWeek todayStart
    let currentMonthStart := helper.startOfMonth todayStart
    let ancestryIds := messages.map (fun m => m.id)
    let dayMap := forcedDayMap helper messages yesterdayStart
    some { currentMessage := currentMessage, todayStart := todayStart,
           todayEnd := todayEnd, yesterdayStart := yesterdayStart,
           currentWeekStart := currentWeekStart, currentMonthStart := currentMonthStart,
           ancestryIds := ancestryIds,
           requirements := buildRequirements helper dayMap todayStart yesterdayStart
             currentWeekStart currentMonthStart }

/-- A row of `conversation_summaries`.  `period_start` is the instant the stored
ISO string denotes; the store key `summaryKey(level, iso)` is embedded as the pair
`(level, instant)`, the injective image of the string key. -/
structure SummaryRecord where
  id : String
  level : SummaryLevel
  period_start : Int
  content : String
  created_by_message_id : Option String
deriving Repr, DecidableEq

abbrev SummaryMap := List ((SummaryLevel × Int) × SummaryRecord)

/-- `evaluateExisting`: no stored row is `"missing"`; a row whose
`created_by_message_id` is falsy (null or empty) or not an ancestor of the branch
head is `"invalid"`; otherwise `"exists"`. -/
def evaluateExisting (summaryMap : SummaryMap) (requirement : Requirement)
    (ancestryIds : List String) : String × Option SummaryRecord :=
  match lookupA summaryMap (requirement.level, requirement.periodStart) with
  | none => ("missing", none)
  | some summary =>
    match summary.created_by_message_id with
    | none => ("invalid", some summary)
    | some m =>
      if m = "" then ("invalid", some summary)
      else if ancestryIds.contains m then ("exists", some summary)
      else ("invalid", some summary)

/-- `listRequired`: the status report for each requirement of the plan, in plan
order. -/
def listRequired (requirements : List Requirement) (summaryMap : SummaryMap)
    (ancestryIds : List String) :
    List (SummaryLevel × Int × String × Option String) :=
  requirements.map (fun requirement =>
    let e := evaluateExisting summaryMap requirement ancestryIds
    (requirement.level, requirement.periodStart, e.1, e.2.map (fun s => s.id)))

/-- `truncate`: cap at 180 characters, replacing the tail with an ellipsis. -/
def truncateStr (value : String) : String :=
  if value.length ≤ 180 then value else jsTake value 179 ++ "…"

/-- Stand-in for `new Date(ms).toISOString()`: an injective rendering of the
instant (the exact ISO text is presentation-only for the claims). -/
def isoOfMs (t : Int) : String := toString t

def buildEmptySummaryBody (level : SummaryLevel) : String :=
  match level with
  | .DAY => "No messages were recorded for this day."
  | .WEEK => "No day-level summaries were available for this week."
  | .MONTH => "No day-level summaries were available for this month."

/-- `buildDaySummaryBody`: one bullet line per message of the period, or the
empty-period placeholder. -/
def buildDaySummaryBody (requirement : Requirement) : String :=
  let lines := requirement.messages.map (fun message =>
    "• [" ++ isoOfMs message.created_at ++ "] " ++ jsToUpper message.role ++ ": " ++
      truncateStr message.content)
  if lines.isEmpty then buildEmptySummaryBody .DAY
  else String.intercalate "\n" lines

/-- `buildAggregateSummaryBody`: one bullet per child DAY summary's first
non-empty content line, children ascending by period start. -/
def buildAggregateSummaryBody (requirement : Requirement)
    (daySummaries : List SummaryRecord) : String :=
  if daySummaries.isEmpty then buildEmptySummaryBody requirement.level
  else
    let sorted := sortLe (fun a b => a.period_start ≤ b.period_start) daySummaries
    let bullets := sorted.map (fun summary =>
      let headline := (((jsSplitLines summary.content).filter
        (fun l => ¬ l = "")).headD "Day Summary")
      "• " ++ headline)
    String.intercalate "\n" bullets

/-- The `line.replace(/^•\s*/u, "").trim()` / blank-line filter / double-newline
join applied when the summarization prompt does not ask for bullets. -/
def stripBullets (body : String) : String :=
  String.intercalate "\n\n"
    (((jsSplitLines body).map (fun line =>
      jsTrim (if jsStartsWith line "•" then jsDrop line 1 else line))).filter
      (fun line => ¬ line = ""))

structure GenLogEntry where
  level : SummaryLevel
  period_start : Int
  created_by_message_id : Option String
deriving Repr, DecidableEq

/-- The mutable state threaded through one `composeContext` run: the summary map
(which doubles as the store view, `upsertSummary` being keyed identically),
a counter standing for the store's id assignment, the generation log, and the
order in which requirements were evaluated (the source's `summary_started`
events). -/
structure GenState where
  summaryMap : SummaryMap
  nextId : Nat
  generated : List GenLogEntry
  reused : List GenLogEntry
  processed : List (SummaryLevel × Int)
deriving Repr, DecidableEq

/-- `upsertSummary`: replace the row with the requirement's key, or append a new
one (unique on `(conversation, level, period_start)`). -/
def upsertS (m : SummaryMap) (r : SummaryRecord) : SummaryMap :=
  if (lookupA m (r.level, r.period_start)).isSome then
    m.map (fun q => if q.1 = (r.level, r.period_start) then (q.1, r) else q)
  else m ++ [((r.level, r.period_start), r)]

/-- The generation path of `generateForRequirement` (taken when the stored
summary is missing or invalid): build the body — per-message bullets for a DAY,
child-DAY-summary bullets for a WEEK/MONTH, read from the summary map as it is at
this point of the run — normalize it per the prompt's bullet preference
(`wantsBullets` is the source's `/bullet/i` test on the prompt), and upsert a
record whose provenance is the current branch-head message. -/
def generateFresh (requirement : Requirement) (currentMessageId : String)
    (wantsBullets : Bool) (st : GenState) : SummaryRecord × GenState :=
  let body :=
    match requirement.level with
    | .DAY => buildDaySummaryBody requirement
    | _ =>
      let childSummaries := requirement.dayKeys.filterMap (fun dayKey =>
        lookupA st.summaryMap (SummaryLevel.DAY, dayKey))
      buildAggregateSummaryBody requirement childSummaries
  let finalBody := if jsTrim body = "" then buildEmptySummaryBody requirement.level else body
  let normalizedBody := if wantsBullets then finalBody else stripBullets finalBody
  let contentBody := if normalizedBody = "" then buildEmptySummaryBody requirement.level
                     else normalizedBody
  let finalContent := jsTrim ("\n\n" ++ contentBody)
  let record : SummaryRecord := {
    id := "summary-" ++ toString st.nextId,
    level := requirement.level,
    period_start := requirement.periodStart,
    content := finalContent,
    created_by_message_id := some currentMessageId }
  (record, { st with
    summaryMap := upsertS st.summaryMap record,
    nextId := st.nextId + 1,
    generated := st.generated ++
      [{ level := requirement.level, period_start := requirement.periodStart,
         created_by_message_id := some currentMessageId }] })

/-- `generateForRequirement`: record the evaluation (the `summary_started` event),
reuse the stored summary when `evaluateExisting` reports `"exists"`, and take the
generation path otherwise. -/
def generateForRequirement (requirement : Requirement) (ancestryIds : List String)
    (currentMessageId : String) (wantsBullets : Bool) (st0 : GenState) :
    SummaryRecord × GenState :=
  let st := { st0 with
    processed := st0.processed ++ [(requirement.level, requirement.periodStart)] }
  let evaluation := evaluateExisting st.summaryMap requirement ancestryIds
  if evaluation.1 = "exists" then
    match evaluation.2 with
    | some summary =>
      (summary, { st with reused := st.reused ++
        [{ level := requirement.level, period_start := requirement.periodStart,
           created_by_message_id := summary.created_by_message_id }] })
    | none => generateFresh requirement currentMessageId wantsBullets st
  else generateFresh requirement currentMessageId wantsBullets st

/-- The generation loop of `composeContext`: every requirement of the plan, in
plan order. -/
def runGeneration (requirements : List Requirement) (ancestryIds : List String)
    (currentMessageId : String) (wantsBullets : Bool) (st : GenState) : GenState :=
  requirements.foldl (fun st requirement =>
    (generateForRequirement requirement ancestryIds currentMessageId wantsBullets st).2) st

/-- `composeContext` up to its generation phase: build the context from the
branch, then run generation over the ordered plan against the preloaded summary
store. -/
def composeContextGeneration (helper : TimeHelper) (messages : List MessageRec)
    (initialSummaries : SummaryMap) (wantsBullets : Bool) : Option GenState :=
  (buildContext helper messages).map (fun ctx =>
    runGeneration ctx.requirements.ordered ctx.ancestryIds ctx.currentMessage.id
      wantsBullets
      { summaryMap := initialSummaries, nextId := 0, generated := [], reused := [],
        processed := [] })

/-! ## Ancestry walking (`getAncestralMessageIds`, `src/unnamed/part_003`) -/

/-- A `chat_messages` row as the walker selects it. -/
structure ChatMessageRow where
  id : String
  thread_id : String
  parent_id : Option String
deriving Repr, DecidableEq

/-- One constructor per failure mode of the walk. -/
inductive AncestryError where
  | emptyId (field : String)
  | notFound (messageId : String)
  | circular (messageId : String)
  | outOfFuel
deriving Repr, DecidableEq

/-- `normalizeId`: trim, reject empty. -/
def normalizeId (value fieldName : String) : Except AncestryError String :=
  let trimmed := jsTrim value
  if trimmed = "" then .error (.emptyId fieldName) else .ok trimmed

/-- `fetchMessageAncestorRow`: the row of the conversation with the given id, or
a not-found error. -/
def fetchMessageAncestorRow (rows : List ChatMessageRow)
    (conversationId messageId : String) : Except AncestryError ChatMessageRow :=
  match rows.find? (fun row => row.thread_id = conversationId ∧ row.id = messageId) with
  | some row => .ok row
  | none => .error (.notFound messageId)

/-- The `while (currentMessageId)` loop: fail on a revisited id, otherwise fetch
the row, record its id, and follow `parent_id`.  The fuel models the fact that the
source loop can only iterate while each step finds a fresh row. -/
def ancestryLoop (rows : List ChatMessageRow) (conversationId : String) :
    Nat → String → List String → List String → Except AncestryError (List String)
  | 0, _, _, _ => .error .outOfFuel
  | fuel + 1, currentMessageId, visited, ancestorIds =>
    if currentMessageId ∈ visited then .error (.circular currentMessageId)
    else do
      let row ← fetchMessageAncestorRow rows conversationId currentMessageId
      match row.parent_id with
      | none => .ok (ancestorIds ++ [row.id])
      | some parent =>
        ancestryLoop rows conversationId fuel parent
          (visited ++ [currentMessageId]) (ancestorIds ++ [row.id])

/-- `getAncestralMessageIds`: normalize both ids, then walk from the head. -/
def getAncestralMessageIds (rows : List ChatMessageRow)
    (conversationId messageId : String) : Except AncestryError (List String) := do
  let conv ← normalizeId conversationId "conversation_id"
  let mid ← normalizeId messageId "message_id"
  ancestryLoop rows conv (rows.length + 1) mid [] []

/-! ## Auxiliary predicates and concrete instances -/

/-- Whether an `Except` computation succeeded. -/
def exceptIsOk {ε α : Type} : Except ε α → Bool
  | .ok _ => true
  | .error _ => false

instance {ε α : Type} [DecidableEq ε] [DecidableEq α] : DecidableEq (Except ε α) :=
  fun a b =>
    match a, b with
    | .ok x, .ok y =>
      if h : x = y then isTrue (by rw [h]) else isFalse (by intro hc; cases hc; exact h rfl)
    | .error x, .error y =>
      if h : x = y then isTrue (by rw [h]) else isFalse (by intro hc; cases hc; exact h rfl)
    | .ok _, .error _ => isFalse (by intro h; cases h)
    | .error _, .ok _ => isFalse (by intro h; cases h)

/-- A document whose nodes `a` and `b` name each other as `graph` container: the
two-node containment cycle of the claim. -/
def twoNodeCycleDoc (a b : String) : GraphDocument :=
  { nodes := [(a, { graph := some b, parents := some [] }),
              (b, { graph := some a, parents := some [] })] }

/-- A message chain A ← B ← C inside one conversation: C's parent is B, B's
parent is A, A has no parent. -/
def chainRows (conv a b c : String) : List ChatMessageRow :=
  [{ id := c, thread_id := conv, parent_id := some b },
   { id := b, thread_id := conv, parent_id := some a },
   { id := a, thread_id := conv, parent_id := none }]

/-- A two-message parent loop: C's parent is B and B's parent is C. -/
def loopRows (conv b c : String) : List ChatMessageRow :=
  [{ id := c, thread_id := conv, parent_id := some b },
   { id := b, thread_id := conv, parent_id := some c }]

/-- The UTC helper (the coordinator's default timezone resolution). -/
def utcHelper : TimeHelper := { offsetMinutes := 0 }

/-- Milliseconds of a UTC date/hour. -/
def utcMs (y m d hour : Int) : Int := daysFromCivil y m d * MS_PER_DAY + hour * 60 * MS_PER_MINUTE

/-- Branch for the ordering scenario: one message on Saturday 2025-10-11 and the
branch head on Sunday 2025-10-12 (a week boundary, so Saturday is "yesterday" but
belongs to the previous — completed — week). -/
def c2msgs : List MessageRec :=
  [{ id := "m1", created_at := utcMs 2025 10 11 12, role := "user", content := "hello" },
   { id := "m2", created_at := utcMs 2025 10 12 9, role := "user", content := "today" }]

def c2weekStart : Int := utcMs 2025 10 5 0

def c2yesterday : Int := utcMs 2025 10 11 0

/-- The generation state the `composeContext` run on `c2msgs` (empty summary
store, bullet-style prompt) ends in. -/
def c2out : GenState :=
  match composeContextGeneration utcHelper c2msgs [] true with
  | some st => st
  | none => { summaryMap := [], nextId := 0, generated := [], reused := [],
              processed := [] }

/-- Pre-patch document for the squishing scenarios: `C1` is a child of both `P`
and `Q`, each at 100%. -/
def c7OrigDoc : GraphDocument :=
  { nodes := [("P", { graph := some "main", parents := some [], percentage_of_parent := 100 }),
              ("Q", { graph := some "main", parents := some [], percentage_of_parent := 100 }),
              ("C1", { graph := some "main", parents := some ["P", "Q"],
                       percentage_of_parent := 100 })] }

/-- Post-patch document: `C2` was added as a further child of `P` only, so `P`'s
child count increased and `Q`'s did not. -/
def c7NewDoc : GraphDocument :=
  { nodes := c7OrigDoc.nodes ++
      [("C2", { graph := some "main", parents := some ["P"], percentage_of_parent := 100 })] }

/-- An already-normalized single-node document that the pipeline maps to itself:
the patch no-op scenario. -/
def fixedPointDoc : GraphDocument :=
  { nodes := [("n", { type := some "objectiveNode", status := none, parents := some [],
                      graph := some "main", percentage_of_parent := 100,
                      true_percentage_of_total := some 100 })] }

/-- A document whose node `A` declares itself as its own `graph` container,
alongside a contract-conforming node. -/
def c4doc : GraphDocument :=
  { nodes := [("ok1", { graph := some "main", parents := some [] }),
              ("A", { graph := some "A", parents := some [] })] }

/-- Node map with one root and one child naming both the root and a missing node
as parents. -/
def c5nodes : List (String × Node) :=
  [("r", { graph := some "main", parents := some [], percentage_of_parent := 40 }),
   ("c", { graph := some "main", parents := some ["r", "missing"],
           percentage_of_parent := 50 })]

/-- A DAY requirement for the epoch day. -/
def c3req : Requirement :=
  { level := .DAY, periodStart := 0, periodEnd := MS_PER_DAY }

/-- A stored DAY summary for the epoch day created by message `m1`. -/
def c3sum : SummaryRecord :=
  { id := "s1", level := .DAY, period_start := 0, content := "stored",
    created_by_message_id := some "m1" }

def c3map : SummaryMap := [((SummaryLevel.DAY, 0), c3sum)]

def c3state : GenState :=
  { summaryMap := c3map, nextId := 0, generated := [], reused := [], processed := [] }

/-- A WEEK requirement whose key is absent from `c3map`. -/
def c3reqWeek : Requirement :=
  { level := .WEEK, periodStart := 0, periodEnd := 7 * MS_PER_DAY }

/-- A stored summary with null provenance. -/
def c3sumNull : SummaryRecord :=
  { id := "s2", level := .DAY, period_start := 0, content := "stored",
    created_by_message_id := none }

def c3stateNull : GenState :=
  { summaryMap := [((SummaryLevel.DAY, 0), c3sumNull)], nextId := 0, generated := [],
    reused := [], processed := [] }

/-- Branch for the planner scenario: messages on Monday 2025-10-13 and Tuesday
2025-10-14, head on Wednesday 2025-10-15. -/
def c9msgs : List MessageRec :=
  [{ id := "m1", created_at := utcMs 2025 10 13 10, role := "user", content := "mon" },
   { id := "m2", created_at := utcMs 2025 10 14 11, role := "user", content := "tue" },
   { id := "m3", created_at := utcMs 2025 10 15 9, role := "user", content := "wed" }]

def c9ctx : ConversationContext :=
  (buildContext utcHelper c9msgs).getD
    { currentMessage := { id := "", created_at := 0 }, todayStart := 0, todayEnd := 0,
      yesterdayStart := 0, currentWeekStart := 0, currentMonthStart := 0,
      ancestryIds := [],
      requirements := { days := [], weeks := [], months := [], ordered := [],
                        yesterday := none } }

def c10heap : Heap :=
  [(0, { graph := some "main", parents := some [], percentage_of_parent := 25 })]

def c10map : NodeRefMap := [("a", 0)]

/-- The result of the heap-level computation on the concrete one-node heap. -/
def c10out : NodeRefMap × Heap :=
  match calculateTruePercentagesHeap c10heap c10map none 2 with
  | .ok out => out
  | .error _ => ([], [])

/-! ## Shared lemmas -/

@[simp]
lemma lookupA_nil {κ α : Type} [DecidableEq κ] (k : κ) :
    lookupA ([] : List (κ × α)) k = none := rfl

@[simp]
lemma lookupA_cons {κ α : Type} [DecidableEq κ] (p : κ × α) (l : List (κ × α)) (k : κ) :
    lookupA (p :: l) k = if p.1 = k then some p.2 else lookupA l k := by
  cases p; rfl

lemma exceptIsOk_iff {ε α : Type} (e : Except ε α) :
    exceptIsOk e = true ↔ ∃ a, e = .ok a := by
  cases e <;> simp [exceptIsOk]

lemma mapME_error_first {ε α β : Type} (f : α → Except ε β) (l : List α) (x : α) (e : ε)
    (hx : x ∈ l) (hfx : f x = .error e)
    (hothers : ∀ y ∈ l, y ≠ x → exceptIsOk (f y) = true) :
    mapME f l = .error e := by
  induction l with
  | nil => cases hx
  | cons y ys ih =>
    by_cases hyx : y = x
    · subst hyx
      simp [mapME, hfx]
    · obtain ⟨b, hb⟩ := (exceptIsOk_iff _).1 (hothers y (List.mem_cons_self _ _) hyx)
      have hx' : x ∈ ys := by
        cases hx with
        | head => exact absurd rfl hyx
        | tail _ h => exact h
      have := ih hx' (fun z hz hzx => hothers z (List.mem_cons_of_mem _ hz) hzx)
      simp [mapME, hb, this]

lemma mapME_ok_mem {ε α β : Type} (f : α → Except ε β) (l : List α) (out : List β)
    (h : mapME f l = .ok out) (x : α) (hx : x ∈ l) :
    ∃ y, y ∈ out ∧ f x = .ok y := by
  induction l generalizing out with
  | nil => cases hx
  | cons z zs ih =>
    unfold mapME at h
    cases hz : f z with
    | error e => rw [hz] at h; cases h
    | ok y =>
      rw [hz] at h
      cases hrest : mapME f zs with
      | error e => rw [hrest] at h; cases h
      | ok ys =>
        rw [hrest] at h
        cases h
        cases hx with
        | head => exact ⟨y, List.mem_cons_self _ _, hz⟩
        | tail _ hmem =>
          obtain ⟨y', hy', hfy'⟩ := ih ys hrest hmem
          exact ⟨y', List.mem_cons_of_mem _ hy', hfy'⟩

lemma mem_insertLe {α : Type} (le : α → α → Bool) (x a : α) (l : List α) :
    a ∈ insertLe le x l ↔ a = x ∨ a ∈ l := by
  induction l with
  | nil => simp [insertLe]
  | cons y ys ih =>
    by_cases h : le y x = true
    · simp only [insertLe, if_pos h, List.mem_cons, ih]
      tauto
    · simp only [insertLe, if_neg h, List.mem_cons]

lemma mem_sortLe {α : Type} (le : α → α → Bool) (a : α) (l : List α) :
    a ∈ sortLe le l ↔ a ∈ l := by
  induction l with
  | nil => simp [sortLe]
  | cons y ys ih =>
    simp only [sortLe, List.foldr] at *
    rw [mem_insertLe, ih]
    simp

lemma chain'_insertLe {α : Type} (le : α → α → Bool)
    (htot : ∀ a b, le a b = true ∨ le b a = true) (x : α) (l : List α)
    (hl : l.Chain' (fun a b => le a b = true)) :
    (insertLe le x l).Chain' (fun a b => le a b = true) := by
  induction l with
  | nil => simp [insertLe]
  | cons y ys ih =>
    by_cases h : le y x = true
    · have hys := hl.tail
      have := ih hys
      unfold insertLe
      rw [if_pos h]
      apply List.chain'_cons'.2
      refine ⟨?_, this⟩
      intro z hz
      cases ys with
      | nil =>
        simp [insertLe] at hz
        subst hz; exact h
      | cons w ws =>
        unfold insertLe at hz
        by_cases hw : le w x = true
        · rw [if_pos hw] at hz
          cases hz
          exact (List.chain'_cons.1 hl).1
        · rw [if_neg hw] at hz
          cases hz
          exact h
    · unfold insertLe
      rw [if_neg h]
      apply List.chain'_cons.2
      exact ⟨(htot x y).resolve_right (fun hc => h hc), hl⟩

lemma chain'_sortLe {α : Type} (le : α → α → Bool)
    (htot : ∀ a b, le a b = true ∨ le b a = true) (l : List α) :
    (sortLe le l).Chain' (fun a b => le a b = true) := by
  induction l with
  | nil => simp [sortLe]
  | cons y ys ih => exact chain'_insertLe le htot y _ ih

lemma keys_pushEntry_mem {κ α : Type} [DecidableEq κ] (m : List (κ × List α)) (key : κ)
    (v : α) (k : κ) :
    k ∈ (pushEntry m key v).map Prod.fst ↔ k ∈ m.map Prod.fst ∨ k = key := by
  induction m with
  | nil => simp [pushEntry]
  | cons p rest ih =>
    by_cases h : p.1 = key
    · simp [pushEntry, h]
      tauto
    · simp [pushEntry, h, ih]
      tauto

lemma lookupA_isSome_iff {κ α : Type} [DecidableEq κ] (l : List (κ × α)) (k : κ) :
    (lookupA l k).isSome = true ↔ k ∈ l.map Prod.fst := by
  induction l with
  | nil => simp
  | cons p rest ih =>
    by_cases h : p.1 = k
    · simp [lookupA_cons, h]
    · simp only [lookupA_cons, if_neg h, List.map_cons, List.mem_cons, ih]
      constructor
      · intro hk
        exact Or.inr hk
      · rintro (rfl | hk)
        · exact absurd rfl h
        · exact hk

lemma nodup_keys_mem_unique {κ α : Type} [DecidableEq κ] (l : List (κ × α))
    (h : (l.map Prod.fst).Nodup) (k : κ) (a b : α)
    (ha : (k, a) ∈ l) (hb : (k, b) ∈ l) : a = b := by
  induction l with
  | nil => cases ha
  | cons p rest ih =>
    have hnd := h
    rw [List.map_cons, List.nodup_cons] at hnd
    cases ha with
    | head =>
      cases hb with
      | head => rfl
      | tail _ hb' =>
        exact absurd (List.mem_map_of_mem Prod.fst hb') hnd.1
    | tail _ ha' =>
      cases hb with
      | head =>
        exact absurd (List.mem_map_of_mem Prod.fst ha') hnd.1
      | tail _ hb' => exact ih hnd.2 ha' hb'

@[simp]
lemma bindE_ok {ε α β : Type} (a : α) (f : α → Except ε β) :
    (Except.ok a >>= f) = f a := rfl

@[simp]
lemma bindE_error {ε α β : Type} (e : ε) (f : α → Except ε β) :
    ((Except.error e : Except ε α) >>= f) = Except.error e := rfl

lemma normalizeNode_graph_self (id : String) (node : Node)
    (v : Option (List String))
    (hgraph : node.graph = some id) (hid : jsTrim id = id) (hne : id ≠ "")
    (htype : exceptIsOk (normalizeType id node.type) = true)
    (hstatus : exceptIsOk (normalizeStatus id node.status) = true) :
    normalizeNode id node v = .error (.selfContainment id) := by
  obtain ⟨t, ht⟩ := (exceptIsOk_iff _).1 htype
  obtain ⟨s, hs⟩ := (exceptIsOk_iff _).1 hstatus
  have hg : normalizeGraph id v node.graph = .error (.selfContainment id) := by
    rw [hgraph]
    unfold normalizeGraph
    simp [hid, hne]
  simp only [normalizeNode, ht, hs, hg, bindE_ok, bindE_error]

/-- C4: a node whose `graph` field is its own id makes whole-document validation
fail with the self-containment error, and the patch invocation that triggered the
validation performs no persistence and creates no version (given that all other
contract checks of the document pass, so that self-containment is the failure the
document-wide sweep reports). -/
theorem c4_self_containment_blocks_patch
    (doc orig : GraphDocument) (fuel : Nat) (id : String) (node : Node)
    (hmem : (id, node) ∈ doc.nodes)
    (hnodup : (doc.nodes.map Prod.fst).Nodup)
    (hgraph : node.graph = some id) (hid : jsTrim id = id) (hne : id ≠ "")
    (htype : exceptIsOk (normalizeType id node.type) = true)
    (hstatus : exceptIsOk (normalizeStatus id node.status) = true)
    (hothers : ∀ p ∈ doc.nodes, p.1 ≠ id →
      exceptIsOk (normalizeNode p.1 p.2 (some (doc.nodes.map Prod.fst))) = true) :
    enforceGraphContractOnDocument doc = .error (.selfContainment id) ∧
    patchPipeline orig doc fuel =
      { result := .error (.selfContainment id), persisted := false,
        versionCreated := false } := by
  have hself := normalizeNode_graph_self id node
    (some (doc.nodes.map Prod.fst)) hgraph hid hne htype hstatus
  have henf : enforceGraphContractOnDocument doc = .error (.selfContainment id) := by
    unfold enforceGraphContractOnDocument
    have hmap : mapME (fun p => do
        let n ← normalizeNode p.1 p.2 (some (doc.nodes.map Prod.fst))
        Except.ok (p.1, n)) doc.nodes = .error (.selfContainment id) := by
      apply mapME_error_first _ _ (id, node)
      · exact hmem
      · simp only [hself, bindE_error]
      · intro y hy hyx
        by_cases hk : y.1 = id
        · have hy2 : y.2 = node := by
            apply nodup_keys_mem_unique doc.nodes hnodup id
            · rw [← hk]
              exact (by cases y; simpa using hy)
            · exact hmem
          refine absurd ?_ hyx
          cases y
          simp only at hk hy2
          rw [hk, hy2]
        · obtain ⟨n', hn'⟩ := (exceptIsOk_iff _).1 (hothers y hy hk)
          rw [exceptIsOk_iff]
          exact ⟨(y.1, n'), by simp only [hn', bindE_ok]⟩
    show (match mapME (fun p => do
        let n ← normalizeNode p.1 p.2 (some (List.map Prod.fst doc.nodes))
        Except.ok (p.1, n)) doc.nodes with
      | Except.error e => Except.error e
      | Except.ok nodes =>
        (Except.ok (GraphDocument.mk nodes doc.viewport) : Except VError GraphDocument)) =
      Except.error (VError.selfContainment id)
    rw [hmap]
  refine ⟨henf, ?_⟩
  unfold patchPipeline processPatchedDocument
  rw [henf]

/-- C4 witness: a concrete document with a contract-conforming node and a
self-containing node; validation fails with self-containment and the pipeline
persists nothing. -/
theorem c4_self_containment_blocks_patch_witness :
    enforceGraphContractOnDocument c4doc = .error (.selfContainment "A") ∧
    patchPipeline { nodes := [] } c4doc 1 =
      { result := .error (.selfContainment "A"), persisted := false,
        versionCreated := false } :=
  c4_self_containment_blocks_patch c4doc { nodes := [] } 1 "A"
    { graph := some "A", parents := some [] }
    (by decide) (by decide) (by decide) (by decide) (by decide) (by decide) (by decide)
    (by decide)

/-- C1 counterexample: the document in which node `A`'s `graph` is `B` and `B`'s
`graph` is `A` (neither `"main"`) **passes** whole-document validation — there is
no containment-cycle detection — and a patch producing it is persisted and
versioned, contradicting the claim that validation fails and nothing is
persisted. -/
theorem c1_cycle_counterexample :
    exceptIsOk (enforceGraphContractOnDocument (twoNodeCycleDoc "A" "B")) = true ∧
    (patchPipeline { nodes := [] } (twoNodeCycleDoc "A" "B") 3).persisted = true ∧
    (patchPipeline { nodes := [] } (twoNodeCycleDoc "A" "B") 3).versionCreated = true := by
  refine ⟨?_, ?_, ?_⟩ <;> decide

/-- C1 amended: whole-document validation accepts a two-node containment cycle —
for any two distinct (trimmed, non-empty) ids `a`, `b`, the document where `a`'s
`graph` is `b` and `b`'s `graph` is `a` validates successfully; only
self-containment and references to ids absent from the document are rejected, so
such a document is persisted by the patch path rather than failing with a
containment-cycle error. -/
theorem c1_cycle_accepted (a b : String) (hab : a ≠ b)
    (ha : jsTrim a = a) (hb : jsTrim b = b) (ha' : a ≠ "") (hb' : b ≠ "") :
    ∃ d, enforceGraphContractOnDocument (twoNodeCycleDoc a b) = .ok d := by
  have hba : ¬ (b = a) := fun h => hab h.symm
  have hab' : ¬ (a = b) := hab
  have hcb : ([a, b].contains b) = true := by
    simp [List.contains, List.elem_cons]
  have hca : ([a, b].contains a) = true := by
    simp [List.contains, List.elem_cons]
  have hga : ∃ g, normalizeGraph a (some [a, b]) (some b) = .ok g := by
    unfold normalizeGraph
    simp only [hb, if_neg hb', if_neg hba]
    by_cases hmain : b = "main"
    · rw [if_pos hmain]; exact ⟨_, rfl⟩
    · rw [if_neg hmain, if_pos hcb]; exact ⟨_, rfl⟩
  have hgb : ∃ g, normalizeGraph b (some [a, b]) (some a) = .ok g := by
    unfold normalizeGraph
    simp only [ha, if_neg ha', if_neg hab']
    by_cases hmain : a = "main"
    · rw [if_pos hmain]; exact ⟨_, rfl⟩
    · rw [if_neg hmain, if_pos hca]; exact ⟨_, rfl⟩
  obtain ⟨g1, hg1⟩ := hga
  obtain ⟨g2, hg2⟩ := hgb
  have hna : ∃ n, normalizeNode a ({ graph := some b, parents := some [] } : Node)
      (some [a, b]) = .ok n := by
    unfold normalizeNode
    simp only [hg1, bindE_ok]
    exact ⟨_, rfl⟩
  have hnb : ∃ n, normalizeNode b ({ graph := some a, parents := some [] } : Node)
      (some [a, b]) = .ok n := by
    unfold normalizeNode
    simp only [hg2, bindE_ok]
    exact ⟨_, rfl⟩
  obtain ⟨n1, h1⟩ := hna
  obtain ⟨n2, h2⟩ := hnb
  have hmm : mapME (fun p => do
      let n ← normalizeNode p.1 p.2 (some [a, b])
      Except.ok (p.1, n))
      [(a, ({ graph := some b, parents := some [] } : Node)),
       (b, ({ graph := some a, parents := some [] } : Node))] = .ok [(a, n1), (b, n2)] := by
    simp only [mapME, h1, h2, bindE_ok]
  refine ⟨{ nodes := [(a, n1), (b, n2)], viewport := {} }, ?_⟩
  unfold enforceGraphContractOnDocument twoNodeCycleDoc
  simp only [List.map_cons, List.map_nil, hmm]

/-- C1 amended witness: the concrete `A`/`B` cycle document validates
successfully. -/
theorem c1_cycle_accepted_witness :
    ∃ d, enforceGraphContractOnDocument (twoNodeCycleDoc "A" "B") = .ok d :=
  c1_cycle_accepted "A" "B" (by decide) (by decide) (by decide) (by decide) (by decide)

/-- C6: when the applied, revalidated, recomputed and squished result is equal to
the pre-patch document, the pipeline returns that document as a successful no-op
with no persistence call and no version snapshot. -/
theorem c6_noop_patch_not_persisted
    (orig patched processed : GraphDocument) (fuel : Nat)
    (hp : processPatchedDocument patched fuel = .ok processed)
    (heq : applySquish orig processed = orig) :
    patchPipeline orig patched fuel =
      { result := .ok orig, persisted := false, versionCreated := false } := by
  unfold patchPipeline
  rw [hp]
  simp only [heq, documentsAreEqual]
  simp

/-- C6 witness: an already-normalized document patched to itself is returned
unchanged without persistence or versioning. -/
theorem c6_noop_patch_not_persisted_witness :
    patchPipeline fixedPointDoc fixedPointDoc 3 =
      { result := .ok fixedPointDoc, persisted := false, versionCreated := false } :=
  c6_noop_patch_not_persisted fixedPointDoc fixedPointDoc fixedPointDoc 3
    (by decide) (by decide)

section SquishLemmas

lemma lookupA_map_update {κ α : Type} [DecidableEq κ] (l : List (κ × α)) (cid : κ)
    (g : α → α) (k : κ) :
    lookupA (l.map (fun q => if q.1 = cid then (q.1, g q.2) else q)) k =
      if k = cid then (lookupA l k).map g else lookupA l k := by
  induction l with
  | nil => simp
  | cons q rest ih =>
    simp only [List.map_cons]
    by_cases hq : q.1 = cid
    · rw [if_pos hq]
      by_cases hk : q.1 = k
      · have hkcid : k = cid := by rw [← hk, hq]
        simp [lookupA_cons, hk, hkcid]
      · by_cases hkc : k = cid
        · exact absurd (hq.trans hkc.symm) hk
        · simp [lookupA_cons, hk, hkc, ih]
    · rw [if_neg hq]
      by_cases hk : q.1 = k
      · have hkc : ¬ k = cid := by rw [← hk]; exact hq
        simp [lookupA_cons, hk, hkc]
      · simp [lookupA_cons, hk, ih]

lemma lookupA_setChildPercentage (doc : GraphDocument) (cid : String) (p : ℚ)
    (k : String) :
    lookupA (setChildPercentage doc cid p).nodes k =
      if k = cid then
        (lookupA doc.nodes k).map (fun n => { n with percentage_of_parent := p })
      else lookupA doc.nodes k := by
  unfold setChildPercentage
  exact lookupA_map_update doc.nodes cid
    (fun n => { n with percentage_of_parent := p }) k

lemma lookupA_setChildren_fold (ds : List String) (doc : GraphDocument) (p : ℚ)
    (k : String) :
    lookupA ((ds.foldl (fun d cid => setChildPercentage d cid p) doc)).nodes k =
      if k ∈ ds then
        (lookupA doc.nodes k).map (fun n => { n with percentage_of_parent := p })
      else lookupA doc.nodes k := by
  induction ds generalizing doc with
  | nil => simp
  | cons d ds ih =>
    simp only [List.foldl_cons]
    rw [ih]
    by_cases hk : k ∈ ds
    · rw [if_pos hk, if_pos (List.mem_cons_of_mem _ hk), lookupA_setChildPercentage]
      by_cases hkd : k = d
      · rw [if_pos hkd, Option.map_map]
        rfl
      · rw [if_neg hkd]
    · rw [if_neg hk, lookupA_setChildPercentage]
      by_cases hkd : k = d
      · rw [if_pos hkd, if_pos (hkd ▸ List.mem_cons_self _ _)]
      · rw [if_neg hkd, if_neg (by simp [hkd, hk])]

lemma lookupA_squishFold_not_mem (A : List (String × List String)) (doc : GraphDocument)
    (c : String) (h : ∀ q ∈ A, c ∉ q.2) :
    lookupA (squishFold doc A).nodes c = lookupA doc.nodes c := by
  induction A generalizing doc with
  | nil => rfl
  | cons q A ih =>
    have hq := h q (List.mem_cons_self _ _)
    have hrest : ∀ q' ∈ A, c ∉ q'.2 := fun q' hq' => h q' (List.mem_cons_of_mem _ hq')
    show lookupA (squishFold _ A).nodes c = _
    rw [ih _ hrest]
    by_cases hlen : 0 < q.2.length
    · rw [if_pos hlen, lookupA_setChildren_fold, if_neg hq]
    · rw [if_neg hlen]

lemma squishFold_append (doc : GraphDocument) (l1 l2 : List (String × List String)) :
    squishFold doc (l1 ++ l2) = squishFold (squishFold doc l1) l2 := by
  induction l1 generalizing doc with
  | nil => rfl
  | cons q l1 ih =>
    show squishFold _ (l1 ++ l2) = _
    rw [ih]
    rfl

lemma lookupA_squishFold_unique (A : List (String × List String)) (doc : GraphDocument)
    (p : String) (cs : List String) (c : String)
    (hmem : (p, cs) ∈ A) (hc : c ∈ cs)
    (hnodup : (A.map Prod.fst).Nodup)
    (huniq : ∀ q ∈ A, c ∈ q.2 → q = (p, cs)) :
    lookupA (squishFold doc A).nodes c =
      (lookupA doc.nodes c).map
        (fun n => { n with percentage_of_parent := 100 / (cs.length : ℚ) }) := by
  obtain ⟨A1, A2, rfl⟩ := List.append_of_mem hmem
  have hnd := hnodup
  rw [List.map_append, List.map_cons] at hnd
  have hp1 : p ∉ (A1.map Prod.fst) := by
    intro hpin
    exact (List.nodup_append.1 hnd).2.2 hpin (List.mem_cons_self _ _)
  have hp2 : p ∉ (A2.map Prod.fst) := by
    have h2 := (List.nodup_append.1 hnd).2.1
    rw [List.nodup_cons] at h2
    exact h2.1
  have hA1 : ∀ q ∈ A1, c ∉ q.2 := by
    intro q hq hcq
    have heq := huniq q (by simp [hq]) hcq
    subst heq
    exact hp1 (List.mem_map_of_mem Prod.fst hq)
  have hA2 : ∀ q ∈ A2, c ∉ q.2 := by
    intro q hq hcq
    have heq := huniq q (by simp [hq]) hcq
    subst heq
    exact hp2 (List.mem_map_of_mem Prod.fst hq)
  have hlen : 0 < cs.length := List.length_pos.2 (List.ne_nil_of_mem hc)
  rw [squishFold_append]
  have step : squishFold (squishFold doc A1) ((p, cs) :: A2) =
      squishFold (cs.foldl (fun d cid =>
        setChildPercentage d cid (100 / (cs.length : ℚ))) (squishFold doc A1)) A2 := by
    show squishFold (if 0 < cs.length then _ else _) A2 = _
    rw [if_pos hlen]
  rw [step, lookupA_squishFold_not_mem A2 _ c hA2, lookupA_setChildren_fold, if_pos hc,
    lookupA_squishFold_not_mem A1 doc c hA1]

lemma foldl_preserve {σ β : Type} (P : σ → Prop) (step : σ → β → σ)
    (hstep : ∀ s x, P s → P (step s x)) :
    ∀ (l : List β) (s : σ), P s → P (l.foldl step s)
  | [], _, h => h
  | x :: xs, s, h => foldl_preserve P step hstep xs (step s x) (hstep s x h)

lemma keys_pushEntry_nodup {κ α : Type} [DecidableEq κ] (m : List (κ × List α)) (key : κ)
    (v : α) (h : (m.map Prod.fst).Nodup) : ((pushEntry m key v).map Prod.fst).Nodup := by
  induction m with
  | nil => simp [pushEntry]
  | cons p rest ih =>
    rw [List.map_cons, List.nodup_cons] at h
    by_cases hp : p.1 = key
    · simp only [pushEntry, if_pos hp, List.map_cons, List.nodup_cons]
      exact ⟨h.1, h.2⟩
    · simp only [pushEntry, if_neg hp, List.map_cons, List.nodup_cons]
      refine ⟨?_, ih h.2⟩
      intro hin
      rcases (keys_pushEntry_mem rest key v p.1).1 hin with h' | h'
      · exact h.1 h'
      · exact hp h'

lemma buildParentToChildrenMap_keys_nodup (doc : GraphDocument) :
    ((buildParentToChildrenMap doc).map Prod.fst).Nodup := by
  unfold buildParentToChildrenMap
  refine foldl_preserve
    (fun (m : List (String × List String)) => (m.map Prod.fst).Nodup) _ ?_
    doc.nodes [] List.nodup_nil
  intro m x hm
  refine foldl_preserve
    (fun (m : List (String × List String)) => (m.map Prod.fst).Nodup) _ ?_
    (x.2.parents.getD []) m hm
  intro m' pid hm'
  exact keys_pushEntry_nodup m' pid x.1 hm'

lemma squishAffected_keys_nodup (orig patched : GraphDocument) :
    (((squishAffected orig patched)).map Prod.fst).Nodup := by
  unfold squishAffected
  exact List.Nodup.sublist ((List.filter_sublist _).map Prod.fst)
    (buildParentToChildrenMap_keys_nodup patched)

end SquishLemmas

/-- C7 counterexample: in the shared-child scenario (`C1` a child of both `P` and
`Q`; the patch adds `C2` under `P` only) parent `Q`'s child list is `["C1"]`
before and after the patch — its child count did not increase — yet `C1`'s
`percentage_of_parent` is rewritten from 100 to 50 by the squish pass, because
`C1` is also a child of the increased parent `P`.  This contradicts the claim
that children of parents whose count did not increase keep their percentages. -/
theorem c7_squish_counterexample :
    lookupA (buildParentToChildrenMap c7OrigDoc) "Q" = some ["C1"] ∧
    lookupA (buildParentToChildrenMap c7NewDoc) "Q" = some ["C1"] ∧
    (lookupA c7NewDoc.nodes "C1").map Node.percentage_of_parent = some 100 ∧
    (lookupA (applySquish c7OrigDoc c7NewDoc).nodes "C1").map Node.percentage_of_parent
      ≠ some 100 := by
  refine ⟨by decide, by decide, by decide, ?_⟩
  have hval : lookupA (applySquish c7OrigDoc c7NewDoc).nodes "C1" =
      (lookupA c7NewDoc.nodes "C1").map
        (fun n => { n with percentage_of_parent := 100 / ((["C1", "C2"].length : Nat) : ℚ) }) := by
    unfold applySquish
    exact lookupA_squishFold_unique _ c7NewDoc "P" ["C1", "C2"] "C1"
      (by decide) (by decide) (squishAffected_keys_nodup c7OrigDoc c7NewDoc) (by decide)
  rw [hval]
  rw [show lookupA c7NewDoc.nodes "C1" =
    some { graph := some "main", parents := some ["P", "Q"],
           percentage_of_parent := 100 } from by decide]
  intro hcontra
  have h2 : (100 : ℚ) / ((2 : Nat) : ℚ) = 100 := Option.some.inj hcontra
  norm_num at h2

/-- C7 amended: for every parent `p` whose child count increased (membership in
`squishAffected`, stated by the first equivalence), each current child that
belongs to no *other* count-increased parent has its `percentage_of_parent` set
to `100 / (new child count)`; and a node that is a current child of *no*
count-increased parent keeps its stored node record unchanged.  (A child shared
with a count-increased parent is renormalized even when its other parents'
counts did not increase — the overwrite the counterexample exhibits.) -/
theorem c7_squish_renormalizes (orig patched : GraphDocument) (p : String)
    (cs : List String) (c : String) :
    ((p, cs) ∈ squishAffected orig patched ↔
      ((p, cs) ∈ buildParentToChildrenMap patched ∧
        ((lookupA (buildParentToChildrenMap orig) p).getD []).length < cs.length)) ∧
    ((p, cs) ∈ squishAffected orig patched → c ∈ cs →
      (∀ q ∈ squishAffected orig patched, c ∈ q.2 → q = (p, cs)) →
      lookupA (applySquish orig patched).nodes c =
        (lookupA patched.nodes c).map
          (fun n => { n with percentage_of_parent := 100 / (cs.length : ℚ) })) ∧
    ((∀ q ∈ squishAffected orig patched, c ∉ q.2) →
      lookupA (applySquish orig patched).nodes c = lookupA patched.nodes c) := by
  refine ⟨?_, ?_, ?_⟩
  · unfold squishAffected
    rw [List.mem_filter]
    simp
  · intro hmem hc huniq
    exact lookupA_squishFold_unique _ patched p cs c hmem hc
      (squishAffected_keys_nodup orig patched) huniq
  · intro h
    exact lookupA_squishFold_not_mem _ patched c h

section ReuseLemmas

lemma lookupA_append {κ α : Type} [DecidableEq κ] (l1 l2 : List (κ × α)) (k : κ) :
    lookupA (l1 ++ l2) k =
      match lookupA l1 k with
      | some v => some v
      | none => lookupA l2 k := by
  induction l1 with
  | nil => simp
  | cons p rest ih =>
    by_cases h : p.1 = k <;> simp [h, ih]

lemma lookupA_map_const_update {κ α : Type} [DecidableEq κ] (l : List (κ × α)) (key : κ)
    (r : α) (h : (lookupA l key).isSome = true) :
    lookupA (l.map (fun q => if q.1 = key then (q.1, r) else q)) key = some r := by
  induction l with
  | nil => simp at h
  | cons p rest ih =>
    by_cases hp : p.1 = key
    · simp [hp]
    · rw [lookupA_cons, if_neg hp] at h
      simp only [List.map_cons, if_neg hp]
      rw [lookupA_cons, if_neg hp]
      exact ih h

lemma lookupA_upsertS (m : SummaryMap) (r : SummaryRecord) :
    lookupA (upsertS m r) (r.level, r.period_start) = some r := by
  unfold upsertS
  by_cases h : (lookupA m (r.level, r.period_start)).isSome = true
  · rw [if_pos h]
    exact lookupA_map_const_update m (r.level, r.period_start) r h
  · rw [if_neg h]
    rw [lookupA_append]
    rw [Option.not_isSome_iff_eq_none] at h
    rw [h]
    simp

end ReuseLemmas

/-- C3: evaluation and (re)generation of one required period against the stored
summaries. If a stored summary exists for the requirement's key and its
`created_by_message_id` is a (non-empty) member of the branch ancestry, the status
is `"exists"` and the coordinator returns that summary without touching the store
or the generation log; if a summary exists whose provenance is null or not an
ancestor, the status is `"invalid"` and a fresh record is upserted under the same
key whose `created_by_message_id` is the current branch-head message; if no
summary is stored, the status is `"missing"`. -/
theorem c3_reuse_invalidation
    (requirement : Requirement) (ancestryIds : List String)
    (currentMessageId : String) (wantsBullets : Bool) (st0 : GenState)
    (s : SummaryRecord) (m : String) :
    ((lookupA st0.summaryMap (requirement.level, requirement.periodStart) = some s →
      s.created_by_message_id = some m → m ≠ "" → m ∈ ancestryIds →
      evaluateExisting st0.summaryMap requirement ancestryIds = ("exists", some s) ∧
      (generateForRequirement requirement ancestryIds currentMessageId wantsBullets st0).1
        = s ∧
      (generateForRequirement requirement ancestryIds currentMessageId wantsBullets
        st0).2.summaryMap = st0.summaryMap ∧
      (generateForRequirement requirement ancestryIds currentMessageId wantsBullets
        st0).2.generated = st0.generated) ∧
    (lookupA st0.summaryMap (requirement.level, requirement.periodStart) = some s →
      (s.created_by_message_id = none ∨
        (s.created_by_message_id = some m ∧ m ∉ ancestryIds)) →
      evaluateExisting st0.summaryMap requirement ancestryIds = ("invalid", some s) ∧
      (generateForRequirement requirement ancestryIds currentMessageId wantsBullets
        st0).1.created_by_message_id = some currentMessageId ∧
      lookupA (generateForRequirement requirement ancestryIds currentMessageId
          wantsBullets st0).2.summaryMap
        (requirement.level, requirement.periodStart) =
        some (generateForRequirement requirement ancestryIds currentMessageId
          wantsBullets st0).1 ∧
      (generateForRequirement requirement ancestryIds currentMessageId wantsBullets
        st0).2.generated = st0.generated ++
        [{ level := requirement.level, period_start := requirement.periodStart,
           created_by_message_id := some currentMessageId }]) ∧
    (lookupA st0.summaryMap (requirement.level, requirement.periodStart) = none →
      evaluateExisting st0.summaryMap requirement ancestryIds = ("missing", none))) := by
  refine ⟨?_, ?_, ?_⟩
  · intro hlook hcb hne hmem
    have heval : evaluateExisting st0.summaryMap requirement ancestryIds
        = ("exists", some s) := by
      unfold evaluateExisting
      rw [hlook]
      simp only [hcb]
      rw [if_neg hne, if_pos (List.elem_iff.2 hmem)]
    refine ⟨heval, ?_, ?_, ?_⟩ <;> simp [generateForRequirement, heval]
  · intro hlook hinv
    have hne2 : ("invalid" : String) ≠ "exists" := by decide
    have heval : evaluateExisting st0.summaryMap requirement ancestryIds
        = ("invalid", some s) := by
      unfold evaluateExisting
      rw [hlook]
      rcases hinv with hnone | ⟨hsome, hnm⟩
      · simp only [hnone]
      · simp only [hsome]
        by_cases hme : m = ""
        · rw [if_pos hme]
        · rw [if_neg hme, if_neg (by simp [List.elem_iff, hnm])]
    have hgen : generateForRequirement requirement ancestryIds currentMessageId
        wantsBullets st0 = generateFresh requirement currentMessageId wantsBullets
        { st0 with processed := st0.processed ++
          [(requirement.level, requirement.periodStart)] } := by
      simp [generateForRequirement, heval, hne2]
    refine ⟨heval, ?_, ?_, ?_⟩
    · rw [hgen]
      rfl
    · rw [hgen]
      unfold generateFresh
      exact lookupA_upsertS _ _
    · rw [hgen]
      rfl
  · intro hlook
    unfold evaluateExisting
    rw [hlook]

/-- C3 witness: with a stored DAY summary created by `m1`, the branch containing
`m1` reuses it; a branch not containing `m1` invalidates and regenerates with the
branch head as provenance; null provenance also invalidates; an absent key
reports missing. -/
theorem c3_reuse_invalidation_witness :
    (evaluateExisting c3state.summaryMap c3req ["m1"] = ("exists", some c3sum) ∧
      (generateForRequirement c3req ["m1"] "head1" true c3state).1 = c3sum ∧
      (generateForRequirement c3req ["m1"] "head1" true c3state).2.summaryMap
        = c3state.summaryMap ∧
      (generateForRequirement c3req ["m1"] "head1" true c3state).2.generated
        = c3state.generated) ∧
    (evaluateExisting c3state.summaryMap c3req ["mX"] = ("invalid", some c3sum) ∧
      (generateForRequirement c3req ["mX"] "head2" true c3state).1.created_by_message_id
        = some "head2" ∧
      lookupA (generateForRequirement c3req ["mX"] "head2" true
          c3state).2.summaryMap (c3req.level, c3req.periodStart) =
        some (generateForRequirement c3req ["mX"] "head2" true c3state).1 ∧
      (generateForRequirement c3req ["mX"] "head2" true c3state).2.generated
        = c3state.generated ++
          [{ level := c3req.level, period_start := c3req.periodStart,
             created_by_message_id := some "head2" }]) ∧
    (evaluateExisting c3stateNull.summaryMap c3req ["m1"]
        = ("invalid", some c3sumNull) ∧
      (generateForRequirement c3req ["m1"] "head3" true
        c3stateNull).1.created_by_message_id = some "head3") ∧
    evaluateExisting c3state.summaryMap c3reqWeek ["m1"] = ("missing", none) :=
  ⟨(c3_reuse_invalidation c3req ["m1"] "head1" true c3state c3sum "m1").1
      (by decide) (by decide) (by decide) (by decide),
   (c3_reuse_invalidation c3req ["mX"] "head2" true c3state c3sum "m1").2.1
      (by decide) (Or.inr ⟨by decide, by decide⟩),
   ⟨((c3_reuse_invalidation c3req ["m1"] "head3" true c3stateNull c3sumNull "m1").2.1
      (by decide) (Or.inl (by decide))).1,
    ((c3_reuse_invalidation c3req ["m1"] "head3" true c3stateNull c3sumNull "m1").2.1
      (by decide) (Or.inl (by decide))).2.1⟩,
   (c3_reuse_invalidation c3reqWeek ["m1"] "h" true c3state c3sum "m1").2.2
      (by decide)⟩

/-- C7 witness: adding `C2` under `P` (previously one child) renormalizes `C2` to
`100 / 2`, while node `P` — a child of no affected parent — is untouched. -/
theorem c7_squish_renormalizes_witness :
    lookupA (applySquish c7OrigDoc c7NewDoc).nodes "C2" =
      (lookupA c7NewDoc.nodes "C2").map
        (fun n => { n with percentage_of_parent := 100 / ((["C1", "C2"].length : Nat) : ℚ) }) ∧
    lookupA (applySquish c7OrigDoc c7NewDoc).nodes "P" = lookupA c7NewDoc.nodes "P" :=
  ⟨(c7_squish_renormalizes c7OrigDoc c7NewDoc "P" ["C1", "C2"] "C2").2.1
      (by decide) (by decide) (by decide),
   (c7_squish_renormalizes c7OrigDoc c7NewDoc "P" ["C1", "C2"] "P").2.2 (by decide)⟩

section PercentageLemmas

lemma foldlM_weighted_sum (f : String → Except VError ℚ) (cpct : ℚ) :
    ∀ (ps : List String) (vs : List ℚ), mapME f ps = .ok vs → ∀ (a : ℚ),
      ps.foldlM (fun acc parentId => do
        let parentPercentage ← f parentId
        Except.ok (acc + cpct * parentPercentage)) a =
      .ok (a + (vs.map (fun v => cpct * v)).sum) := by
  intro ps
  induction ps with
  | nil =>
    intro vs h a
    unfold mapME at h
    cases h
    simp only [List.foldlM_nil, List.map_nil, List.sum_nil, add_zero]
    rfl
  | cons p ps ih =>
    intro vs h a
    unfold mapME at h
    cases hp : f p with
    | error e => rw [hp] at h; cases h
    | ok v =>
      rw [hp] at h
      cases hrest : mapME f ps with
      | error e => rw [hrest] at h; cases h
      | ok vs' =>
        rw [hrest] at h
        cases h
        rw [List.foldlM_cons]
        simp only [hp, bindE_ok]
        rw [ih vs' hrest (a + cpct * v)]
        simp [add_assoc]

end PercentageLemmas

/-- C5: the percentage propagator.  For a node present in the map whose
normalized `parents` list is empty, the result is its `percentage_of_parent`;
for a node with (normalized) parents `p₀ :: ps`, the result is the sum over the
parent references of `(percentage_of_parent / 100) *` the parent's recursive
percentage; a node id absent from the map yields 0 with no error; and
`calculateTruePercentages` writes precisely these values into
`true_percentage_of_total` of every node of the map. -/
theorem c5_true_percentages
    (nodes : List (String × Node)) (validIds : Option (List String)) (fuel : Nat)
    (id : String) (node n' : Node) (p0 : String) (ps0 : List String) (vs : List ℚ)
    (out : List (String × Node)) :
    ((lookupA nodes id = some node → normalizeNode id node validIds = .ok n' →
      n'.parents = some [] →
      getTruePercentage nodes validIds (fuel + 1) id = .ok node.percentage_of_parent) ∧
    (lookupA nodes id = some node → normalizeNode id node validIds = .ok n' →
      n'.parents = some (p0 :: ps0) →
      mapME (getTruePercentage nodes validIds fuel) (p0 :: ps0) = .ok vs →
      getTruePercentage nodes validIds (fuel + 1) id =
        .ok ((vs.map (fun v => node.percentage_of_parent / 100 * v)).sum)) ∧
    (lookupA nodes id = none →
      getTruePercentage nodes validIds (fuel + 1) id = .ok 0) ∧
    (calculateTruePercentages nodes validIds fuel = .ok out → (id, node) ∈ nodes →
      ∃ v nn, getTruePercentage nodes validIds fuel id = .ok v ∧ (id, nn) ∈ out ∧
        nn.true_percentage_of_total = some v)) := by
  refine ⟨?_, ?_, ?_, ?_⟩
  · intro hlook hnorm hpar
    unfold getTruePercentage
    simp only [hlook, hnorm, hpar, Option.getD_some]
  · intro hlook hnorm hpar hmap
    unfold getTruePercentage
    simp only [hlook, hnorm, hpar, Option.getD_some]
    rw [foldlM_weighted_sum (getTruePercentage nodes validIds fuel)
      (node.percentage_of_parent / 100) (p0 :: ps0) vs hmap 0]
    rw [zero_add]
  · intro hlook
    unfold getTruePercentage
    simp only [hlook]
  · intro hcalc hmem
    obtain ⟨y, hyout, hy⟩ := mapME_ok_mem _ nodes out hcalc (id, node) hmem
    cases hv : getTruePercentage nodes validIds fuel id with
    | error e =>
      rw [show ((id, node) : String × Node).1 = id from rfl] at hy
      simp only [hv, bindE_error] at hy
      cases hy
    | ok v =>
      cases hn : normalizeNode id node validIds with
      | error e =>
        simp only [hv, hn, bindE_ok, bindE_error] at hy
        cases hy
      | ok nn =>
        simp only [hv, hn, bindE_ok] at hy
        cases hy
        exact ⟨v, _, rfl, hyout, rfl⟩

/-- C5 witness: in the concrete two-node map, the root gets its own percentage,
the child sums `50/100 *` over its resolved parent (40) and its missing parent
(0), and the wrapper records both values. -/
theorem c5_true_percentages_witness :
    getTruePercentage c5nodes none 3 "r" = .ok (40 : ℚ) ∧
    getTruePercentage c5nodes none 3 "c" =
      .ok (([(40 : ℚ), 0].map (fun v => (50 : ℚ) / 100 * v)).sum) ∧
    getTruePercentage c5nodes none 3 "missing" = .ok 0 :=
  ⟨(c5_true_percentages c5nodes none 2 "r"
      { graph := some "main", parents := some [], percentage_of_parent := 40 }
      { graph := some "main", parents := some [], percentage_of_parent := 40,
        type := some ALLOWED_NODE_TYPE, status := none }
      "" [] [] []).1 (by decide) (by decide) (by decide),
   (c5_true_percentages c5nodes none 2 "c"
      { graph := some "main", parents := some ["r", "missing"],
        percentage_of_parent := 50 }
      { graph := some "main", parents := some ["r", "missing"],
        percentage_of_parent := 50, type := some ALLOWED_NODE_TYPE, status := none }
      "r" ["missing"] [40, 0] []).2.1 (by decide) (by decide) (by decide) (by decide),
   (c5_true_percentages c5nodes none 2 "missing"
      {} {} "" [] [] []).2.2.1 (by decide)⟩

section AncestryLemmas

lemma ancestryLoop_ok_nodup (rows : List ChatMessageRow) (conv : String) :
    ∀ (fuel : Nat) (cur : String) (visited acc : List String) (l : List String),
      acc = visited → visited.Nodup →
      ancestryLoop rows conv fuel cur visited acc = .ok l → l.Nodup := by
  intro fuel
  induction fuel with
  | zero =>
    intro cur visited acc l _ _ h
    cases h
  | succ fuel ih =>
    intro cur visited acc l hacc hnd h
    unfold ancestryLoop at h
    by_cases hvis : cur ∈ visited
    · rw [if_pos hvis] at h
      cases h
    · rw [if_neg hvis] at h
      cases hrow : fetchMessageAncestorRow rows conv cur with
      | error e =>
        rw [hrow] at h
        cases h
      | ok row =>
        rw [hrow, bindE_ok] at h
        have hrowid : row.id = cur := by
          unfold fetchMessageAncestorRow at hrow
          cases hf : rows.find? (fun r => r.thread_id = conv ∧ r.id = cur) with
          | none => rw [hf] at hrow; cases hrow
          | some r =>
            rw [hf] at hrow
            cases hrow
            have hp := List.find?_some hf
            simp only [decide_eq_true_eq] at hp
            exact hp.2
        have hnd' : (visited ++ [cur]).Nodup := by
          rw [List.nodup_append]
          exact ⟨hnd, List.nodup_singleton _, by simpa using hvis⟩
        cases hpar : row.parent_id with
        | none =>
          rw [hpar] at h
          cases h
          rw [hacc, hrowid]
          exact hnd'
        | some parent =>
          rw [hpar] at h
          exact ih parent (visited ++ [cur]) (acc ++ [row.id]) l
            (by rw [hacc, hrowid]) hnd' h

end AncestryLemmas

/-- C8: walking the ancestry of the chain A ← B ← C from `C` yields exactly
`[C, B, A]` in that order; walking a chain with a parent loop (B's parent is C,
C's parent is B) fails with the circular-ancestry error on the revisited id; and
in general a successful walk never contains a repeated id — any revisit aborts
with an error before returning. -/
theorem c8_ancestry_walk (conv a b c : String)
    (hconv : jsTrim conv = conv) (hconv' : conv ≠ "")
    (hc : jsTrim c = c) (hc' : c ≠ "")
    (hab : a ≠ b) (hac : a ≠ c) (hbc : b ≠ c) :
    getAncestralMessageIds (chainRows conv a b c) conv c = .ok [c, b, a] ∧
    getAncestralMessageIds (loopRows conv b c) conv c = .error (.circular c) ∧
    (∀ (rows : List ChatMessageRow) (conv' : String) (fuel : Nat) (cur : String)
      (visited acc l : List String), acc = visited → visited.Nodup →
      ancestryLoop rows conv' fuel cur visited acc = .ok l → l.Nodup) := by
  have hnorm : ∀ (v : String), jsTrim v = v → v ≠ "" →
      normalizeId v "conversation_id" = .ok v ∧ normalizeId v "message_id" = .ok v := by
    intro v hv hv'
    constructor <;>
      (unfold normalizeId
       rw [hv]
       rw [if_neg hv'])
  refine ⟨?_, ?_, ?_⟩
  · unfold getAncestralMessageIds
    rw [(hnorm conv hconv hconv').1, bindE_ok, (hnorm c hc hc').2, bindE_ok]
    show ancestryLoop (chainRows conv a b c) conv 4 c [] [] = _
    unfold ancestryLoop fetchMessageAncestorRow chainRows
    simp [List.find?, hbc, Ne.symm hbc, hac, Ne.symm hac, hab, Ne.symm hab,
      ancestryLoop, fetchMessageAncestorRow]
  · unfold getAncestralMessageIds
    rw [(hnorm conv hconv hconv').1, bindE_ok, (hnorm c hc hc').2, bindE_ok]
    show ancestryLoop (loopRows conv b c) conv 3 c [] [] = _
    unfold ancestryLoop fetchMessageAncestorRow loopRows
    simp [List.find?, hbc, Ne.symm hbc, ancestryLoop, fetchMessageAncestorRow]
  · intro rows conv' fuel cur visited acc l hacc hnd h
    exact ancestryLoop_ok_nodup rows conv' fuel cur visited acc l hacc hnd h

/-- C8 witness: the concrete chain and loop with ids `a`, `b`, `c` in thread
`t`. -/
theorem c8_ancestry_walk_witness :
    getAncestralMessageIds (chainRows "t" "a" "b" "c") "t" "c" = .ok ["c", "b", "a"] ∧
    getAncestralMessageIds (loopRows "t" "b" "c") "t" "c"
      = .error (.circular "c") :=
  ⟨(c8_ancestry_walk "t" "a" "b" "c" (by decide) (by decide) (by decide) (by decide)
      (by decide) (by decide) (by decide)).1,
   (c8_ancestry_walk "t" "a" "b" "c" (by decide) (by decide) (by decide) (by decide)
      (by decide) (by decide) (by decide)).2.1⟩

section HeapLemmas

lemma lookupA_heapUpdate (h : Heap) (r : Nat) (n : Node) (k : Nat) :
    lookupA (heapUpdate h r n) k =
      if k = r then (lookupA h k).map (fun _ => n) else lookupA h k := by
  unfold heapUpdate
  exact lookupA_map_update h r (fun _ => n) k

/-- Invariants of the mutation loop: reference domains are preserved, nodes
already carrying `true_percentage_of_total` keep carrying it, and every entry of
the processed list whose reference resolves ends up carrying it. -/
lemma calcHeapFold_spec (validIds : Option (List String)) (fuel : Nat)
    (map : NodeRefMap) :
    ∀ (l : List (String × Nat)) (h0 h1 : Heap),
      l.foldlM (calcHeapStep validIds fuel map) h0 = .ok h1 →
      ((∀ r, (lookupA h0 r).isSome = true → (lookupA h1 r).isSome = true) ∧
       (∀ r, (∃ n, lookupA h0 r = some n ∧ n.true_percentage_of_total.isSome = true) →
         (∃ n, lookupA h1 r = some n ∧ n.true_percentage_of_total.isSome = true)) ∧
       (∀ p ∈ l, (lookupA h0 p.2).isSome = true →
         ∃ n, lookupA h1 p.2 = some n ∧ n.true_percentage_of_total.isSome = true)) := by
  intro l
  induction l with
  | nil =>
    intro h0 h1 h
    cases h
    exact ⟨fun r hr => hr, fun r hr => hr, fun p hp => absurd hp (List.not_mem_nil p)⟩
  | cons p l ih =>
    intro h0 h1 h
    rw [List.foldlM_cons] at h
    cases hstep : calcHeapStep validIds fuel map h0 p with
    | error e =>
      rw [hstep] at h
      cases h
    | ok h0' =>
      rw [hstep, bindE_ok] at h
      unfold calcHeapStep at hstep
      obtain ⟨hdom, hkeep, hproc⟩ := ih h0' h1 h
      cases hlook : lookupA h0 p.2 with
      | none =>
        rw [hlook] at hstep
        cases hstep
        refine ⟨hdom, hkeep, ?_⟩
        intro q hq hqsome
        cases List.mem_cons.1 hq with
        | inl heq =>
          subst heq
          rw [hlook] at hqsome
          cases hqsome
        | inr hmem => exact hproc q hmem hqsome
      | some node =>
        rw [hlook] at hstep
        cases hv : getTruePercentage (heapNodes h0 map) validIds fuel p.1 with
        | error e =>
          simp only [hv, bindE_error] at hstep
          cases hstep
        | ok v =>
          cases hn : normalizeNode p.1 node validIds with
          | error e =>
            simp only [hv, hn, bindE_ok, bindE_error] at hstep
            cases hstep
          | ok nn =>
            simp only [hv, hn, bindE_ok] at hstep
            cases hstep
            have hdom0 : ∀ r, (lookupA h0 r).isSome = true →
                (lookupA (heapUpdate h0 p.2
                  { nn with true_percentage_of_total := some v }) r).isSome = true := by
              intro r hr
              rw [lookupA_heapUpdate]
              by_cases hrp : r = p.2
              · subst hrp
                rw [if_pos rfl]
                obtain ⟨x, hx⟩ := Option.isSome_iff_exists.1 hr
                rw [hx]
                rfl
              · rw [if_neg hrp]
                exact hr
            have hkeep0 : ∀ r,
                (∃ n, lookupA h0 r = some n ∧ n.true_percentage_of_total.isSome = true) →
                (∃ n, lookupA (heapUpdate h0 p.2
                    { nn with true_percentage_of_total := some v }) r = some n ∧
                  n.true_percentage_of_total.isSome = true) := by
              intro r hr
              obtain ⟨n0, hn0, hn0t⟩ := hr
              rw [lookupA_heapUpdate]
              by_cases hrp : r = p.2
              · subst hrp
                rw [if_pos rfl, hn0]
                exact ⟨_, rfl, rfl⟩
              · rw [if_neg hrp]
                exact ⟨n0, hn0, hn0t⟩
            refine ⟨fun r hr => hdom r (hdom0 r hr), fun r hr => hkeep r (hkeep0 r hr), ?_⟩
            intro q hq hqsome
            cases List.mem_cons.1 hq with
            | inl heq =>
              subst heq
              apply hkeep
              rw [lookupA_heapUpdate, if_pos rfl, hlook]
              exact ⟨_, rfl, rfl⟩
            | inr hmem =>
              exact hproc q hmem (hdom0 q.2 hqsome)

end HeapLemmas

/-- C10: `calculateTruePercentages` copies the node map only shallowly.  The map
it returns is the caller's own id → node-object reference table (`{ ...nodes }`
copies references, not node objects), and the computation writes through those
shared references: afterwards, every reference reachable from the *caller's*
map resolves to a node that has been rewritten in place — in particular its
derived `true_percentage_of_total` field is now populated. -/
theorem c10_shallow_copy_in_place_mutation
    (heap : Heap) (nodes : NodeRefMap) (validIds : Option (List String)) (fuel : Nat)
    (out : NodeRefMap × Heap)
    (h : calculateTruePercentagesHeap heap nodes validIds fuel = .ok out)
    (hdom : ∀ p ∈ nodes, (lookupA heap p.2).isSome = true) :
    out.1 = nodes ∧
    ∀ p ∈ nodes, ∃ n, lookupA out.2 p.2 = some n ∧
      n.true_percentage_of_total.isSome = true := by
  simp only [calculateTruePercentagesHeap] at h
  cases hfold : nodes.foldlM (calcHeapStep validIds fuel nodes) heap with
  | error e =>
    rw [hfold] at h
    cases h
  | ok h1 =>
    rw [hfold] at h
    cases h
    obtain ⟨_, _, hproc⟩ := calcHeapFold_spec validIds fuel nodes nodes heap h1 hfold
    exact ⟨rfl, fun p hp => hproc p hp (hdom p hp)⟩

/-- C10 witness: the concrete one-node heap; the returned map is the input map
and the caller's reference now sees `true_percentage_of_total` populated. -/
theorem c10_shallow_copy_in_place_mutation_witness :
    c10out.1 = c10map ∧
    ∀ p ∈ c10map, ∃ n, lookupA c10out.2 p.2 = some n ∧
      n.true_percentage_of_total.isSome = true :=
  c10_shallow_copy_in_place_mutation c10heap c10map none 2 c10out
    (by decide) (by decide)

section PlannerLemmas

lemma sorted_map_periodStart_sortLe (l : List Requirement) :
    ((sortLe (fun a b => a.periodStart ≤ b.periodStart) l).map
      Requirement.periodStart).Sorted (· ≤ ·) := by
  have htot : ∀ a b : Requirement,
      (decide (a.periodStart ≤ b.periodStart)) = true ∨
      (decide (b.periodStart ≤ a.periodStart)) = true := by
    intro a b
    rcases le_total a.periodStart b.periodStart with h | h
    · exact Or.inl (decide_eq_true h)
    · exact Or.inr (decide_eq_true h)
  have hch := chain'_sortLe (fun a b => decide (a.periodStart ≤ b.periodStart)) htot l
  have hch2 : (sortLe (fun a b => decide (a.periodStart ≤ b.periodStart)) l).Chain'
      (fun a b => a.periodStart ≤ b.periodStart) :=
    List.Chain'.imp (fun a b hab => of_decide_eq_true hab) hch
  have hch3 := (List.chain'_map Requirement.periodStart).2 hch2
  exact List.chain'_iff_pairwise.1 hch3

lemma dayReqsOf_sub (dayMap : List (Int × List MessageRec)) (t : Int) :
    ∀ r ∈ dayReqsOf dayMap t, r.level = .DAY ∧
      r.periodStart ∈ dayMap.map Prod.fst ∧ r.periodStart < t := by
  intro r hr
  obtain ⟨key, hkey, hif⟩ := List.mem_filterMap.1 hr
  by_cases ht : t ≤ key
  · rw [if_pos ht] at hif
    cases hif
  · rw [if_neg ht] at hif
    cases hif
    exact ⟨rfl, (mem_sortLe _ _ _).1 hkey, not_le.1 ht⟩

lemma dayReqsOf_super (dayMap : List (Int × List MessageRec)) (t : Int) :
    ∀ k ∈ dayMap.map Prod.fst, k < t →
      ∃ r ∈ dayReqsOf dayMap t, r.periodStart = k := by
  intro k hk hkt
  refine ⟨{ level := .DAY, periodStart := k, periodEnd := TimeHelper.addDays k 1,
            dayKeys := [k],
            messages := ensureChronological ((lookupA dayMap k).getD []) },
    List.mem_filterMap.2 ⟨k, (mem_sortLe _ _ _).2 hk, ?_⟩, rfl⟩
  rw [if_neg (not_le.2 hkt)]

lemma buildRequirements_days_eq (helper : TimeHelper)
    (dayMap : List (Int × List MessageRec)) (t y cw cm : Int) :
    (buildRequirements helper dayMap t y cw cm).days =
      sortLe (fun a b => a.periodStart ≤ b.periodStart)
        ((dayReqsOf dayMap t).filter
          (fun r => ¬ r.periodStart = y ∧ cw ≤ r.periodStart)) := rfl

lemma buildRequirements_yesterday_eq (helper : TimeHelper)
    (dayMap : List (Int × List MessageRec)) (t y cw cm : Int) :
    (buildRequirements helper dayMap t y cw cm).yesterday =
      (dayReqsOf dayMap t).find? (fun r => r.periodStart = y) := rfl

lemma buildRequirements_ordered_eq (helper : TimeHelper)
    (dayMap : List (Int × List MessageRec)) (t y cw cm : Int) :
    (buildRequirements helper dayMap t y cw cm).ordered =
      (buildRequirements helper dayMap t y cw cm).months ++
      (buildRequirements helper dayMap t y cw cm).weeks ++
      (buildRequirements helper dayMap t y cw cm).days ++
      (match (buildRequirements helper dayMap t y cw cm).yesterday with
       | some yq => [yq]
       | none => []) := rfl

lemma buildRequirements_days_sub (helper : TimeHelper)
    (dayMap : List (Int × List MessageRec)) (t y cw cm : Int) :
    ∀ r ∈ (buildRequirements helper dayMap t y cw cm).days,
      r.level = .DAY ∧ r.periodStart ∈ dayMap.map Prod.fst ∧ r.periodStart < t ∧
      ¬ r.periodStart = y ∧ cw ≤ r.periodStart := by
  intro r hr
  rw [buildRequirements_days_eq] at hr
  have hr1 := (mem_sortLe _ _ _).1 hr
  obtain ⟨hrd, hp⟩ := List.mem_filter.1 hr1
  simp only [decide_eq_true_eq] at hp
  obtain ⟨hl, hm, hlt⟩ := dayReqsOf_sub dayMap t r hrd
  exact ⟨hl, hm, hlt, hp.1, hp.2⟩

lemma buildRequirements_days_super (helper : TimeHelper)
    (dayMap : List (Int × List MessageRec)) (t y cw cm : Int) :
    ∀ k ∈ dayMap.map Prod.fst, k < t → ¬ k = y → cw ≤ k →
      ∃ r ∈ (buildRequirements helper dayMap t y cw cm).days, r.periodStart = k := by
  intro k hk hkt hky hcw
  obtain ⟨r, hrd, hrk⟩ := dayReqsOf_super dayMap t k hk hkt
  refine ⟨r, ?_, hrk⟩
  rw [buildRequirements_days_eq]
  rw [mem_sortLe]
  refine List.mem_filter.2 ⟨hrd, ?_⟩
  simp only [decide_eq_true_eq]
  rw [hrk]
  exact ⟨hky, hcw⟩

lemma buildRequirements_yesterday_isSome (helper : TimeHelper)
    (dayMap : List (Int × List MessageRec)) (t y cw cm : Int)
    (hy : y ∈ dayMap.map Prod.fst) (hyt : y < t) :
    ∃ yq, (buildRequirements helper dayMap t y cw cm).yesterday = some yq ∧
      yq.level = .DAY ∧ yq.periodStart = y := by
  obtain ⟨r, hrd, hrk⟩ := dayReqsOf_super dayMap t y hy hyt
  have hsome : ((dayReqsOf dayMap t).find?
      (fun r => r.periodStart = y)).isSome = true := by
    rw [List.find?_isSome]
    exact ⟨r, hrd, by simp [hrk]⟩
  obtain ⟨yq, hyq⟩ := Option.isSome_iff_exists.1 hsome
  refine ⟨yq, by rw [buildRequirements_yesterday_eq]; exact hyq, ?_, ?_⟩
  · exact (dayReqsOf_sub dayMap t yq (List.mem_of_find?_eq_some hyq)).1
  · have := List.find?_some hyq
    simpa using this

lemma buildRequirements_yesterday_props (helper : TimeHelper)
    (dayMap : List (Int × List MessageRec)) (t y cw cm : Int) (yq : Requirement)
    (h : (buildRequirements helper dayMap t y cw cm).yesterday = some yq) :
    yq.level = .DAY ∧ yq.periodStart = y := by
  rw [buildRequirements_yesterday_eq] at h
  refine ⟨(dayReqsOf_sub dayMap t yq (List.mem_of_find?_eq_some h)).1, ?_⟩
  have := List.find?_some h
  simpa using this

lemma buildRequirements_months_level (helper : TimeHelper)
    (dayMap : List (Int × List MessageRec)) (t y cw cm : Int) :
    ∀ r ∈ (buildRequirements helper dayMap t y cw cm).months, r.level = .MONTH := by
  intro r hr
  have hr1 := (mem_sortLe _ _ _).1 hr
  obtain ⟨q, _, hif⟩ := List.mem_filterMap.1 hr1
  by_cases h1 : cm ≤ q.1
  · rw [if_pos h1] at hif
    cases hif
  · rw [if_neg h1] at hif
    cases hif
    rfl

lemma buildRequirements_weeks_level (helper : TimeHelper)
    (dayMap : List (Int × List MessageRec)) (t y cw cm : Int) :
    ∀ r ∈ (buildRequirements helper dayMap t y cw cm).weeks, r.level = .WEEK := by
  intro r hr
  have hr1 := (mem_sortLe _ _ _).1 hr
  obtain ⟨q, _, hif⟩ := List.mem_filterMap.1 hr1
  by_cases h1 : cw ≤ q.1
  · rw [if_pos h1] at hif
    cases hif
  · rw [if_neg h1] at hif
    by_cases h2 : q.1 < cm
    · rw [if_pos h2] at hif
      cases hif
    · rw [if_neg h2] at hif
      cases hif
      rfl

lemma buildRequirements_sorted (helper : TimeHelper)
    (dayMap : List (Int × List MessageRec)) (t y cw cm : Int) :
    (((buildRequirements helper dayMap t y cw cm).months.map
        Requirement.periodStart).Sorted (· ≤ ·)) ∧
    (((buildRequirements helper dayMap t y cw cm).weeks.map
        Requirement.periodStart).Sorted (· ≤ ·)) ∧
    (((buildRequirements helper dayMap t y cw cm).days.map
        Requirement.periodStart).Sorted (· ≤ ·)) :=
  ⟨sorted_map_periodStart_sortLe _, sorted_map_periodStart_sortLe _,
    sorted_map_periodStart_sortLe _⟩

lemma mem_keys_groupFold (helper : TimeHelper) :
    ∀ (msgs : List MessageRec) (acc : List (Int × List MessageRec)) (k : Int),
      (k ∈ ((msgs.foldl (fun dayMap message =>
        pushEntry dayMap (helper.startOfDay message.created_at) message) acc).map
          Prod.fst) ↔
      k ∈ acc.map Prod.fst ∨ ∃ m ∈ msgs, helper.startOfDay m.created_at = k) := by
  intro msgs
  induction msgs with
  | nil => simp
  | cons x xs ih =>
    intro acc k
    rw [List.foldl_cons, ih]
    rw [keys_pushEntry_mem]
    simp only [List.mem_cons]
    constructor
    · rintro ((hacc | hk) | ⟨m, hm, hmk⟩)
      · exact Or.inl hacc
      · exact Or.inr ⟨x, Or.inl rfl, hk.symm⟩
      · exact Or.inr ⟨m, Or.inr hm, hmk⟩
    · rintro (hacc | ⟨m, hm | hm, hmk⟩)
      · exact Or.inl (Or.inl hacc)
      · exact Or.inl (Or.inr (by rw [hm] at hmk; exact hmk.symm))
      · exact Or.inr ⟨m, hm, hmk⟩

lemma mem_keys_groupMessagesByDay (helper : TimeHelper) (msgs : List MessageRec)
    (k : Int) :
    k ∈ (groupMessagesByDay helper msgs).map Prod.fst ↔
      ∃ m ∈ msgs, helper.startOfDay m.created_at = k := by
  unfold groupMessagesByDay
  rw [mem_keys_groupFold]
  simp

lemma startOfDay_lt_imp_le_sub (h : TimeHelper) (x ref : Int)
    (hlt : h.startOfDay x < h.startOfDay ref) :
    h.startOfDay x ≤ h.startOfDay ref - MS_PER_DAY := by
  unfold TimeHelper.startOfDay at *
  have hD : (0 : Int) < MS_PER_DAY := by norm_num [MS_PER_DAY]
  have h1 : h.localDays x * MS_PER_DAY < h.localDays ref * MS_PER_DAY := by linarith
  have h2 : h.localDays x < h.localDays ref :=
    lt_of_mul_lt_mul_right h1 (le_of_lt hD)
  have h3 : h.localDays x + 1 ≤ h.localDays ref := Int.lt_iff_add_one_le.1 h2
  have h4 : (h.localDays x + 1) * MS_PER_DAY ≤ h.localDays ref * MS_PER_DAY :=
    mul_le_mul_of_nonneg_right h3 (le_of_lt hD)
  rw [add_mul, one_mul] at h4
  linarith

lemma generateForRequirement_processed (r : Requirement) (a : List String)
    (mid : String) (w : Bool) (st0 : GenState) :
    (generateForRequirement r a mid w st0).2.processed =
      st0.processed ++ [(r.level, r.periodStart)] := by
  unfold generateForRequirement generateFresh
  by_cases h : (evaluateExisting st0.summaryMap r a).1 = "exists"
  · simp only [if_pos h]
    cases hev : (evaluateExisting st0.summaryMap r a).2 with
    | some s => simp [hev]
    | none => simp [hev]
  · simp only [if_neg h]

lemma runGeneration_processed (a : List String) (mid : String) (w : Bool) :
    ∀ (reqs : List Requirement) (st0 : GenState),
      (runGeneration reqs a mid w st0).processed =
        st0.processed ++ reqs.map (fun r => (r.level, r.periodStart)) := by
  intro reqs
  induction reqs with
  | nil =>
    intro st0
    simp [runGeneration]
  | cons r rs ih =>
    intro st0
    have hstep : runGeneration (r :: rs) a mid w st0 =
        runGeneration rs a mid w (generateForRequirement r a mid w st0).2 := rfl
    rw [hstep, ih, generateForRequirement_processed]
    simp

lemma mem_keys_forcedDayMap (helper : TimeHelper) (msgs : List MessageRec)
    (y k : Int) :
    k ∈ (forcedDayMap helper msgs y).map Prod.fst ↔
      ((∃ m ∈ msgs, helper.startOfDay m.created_at = k) ∨ k = y) := by
  have hbase : ∀ j, (j ∈ (groupMessagesByDay helper
      (ensureChronological msgs)).map Prod.fst ↔
      ∃ m ∈ msgs, helper.startOfDay m.created_at = j) := by
    intro j
    rw [mem_keys_groupMessagesByDay]
    constructor
    · rintro ⟨m, hm, hmj⟩
      exact ⟨m, (mem_sortLe _ _ _).1 hm, hmj⟩
    · rintro ⟨m, hm, hmj⟩
      exact ⟨m, (mem_sortLe _ _ _).2 hm, hmj⟩
  unfold forcedDayMap
  by_cases h : (lookupA (groupMessagesByDay helper (ensureChronological msgs))
      y).isSome = true
  · rw [if_pos h]
    rw [hbase k]
    constructor
    · exact Or.inl
    · rintro (hk | rfl)
      · exact hk
      · exact (hbase k).1 ((lookupA_isSome_iff _ _).1 h)
  · rw [if_neg h]
    rw [List.map_append, List.mem_append, hbase k]
    simp

lemma buildContext_fields (helper : TimeHelper) (messages : List MessageRec)
    (ctx : ConversationContext) (h : buildContext helper messages = some ctx) :
    ∃ cm, messages.getLast? = some cm ∧
      ctx.todayStart = helper.startOfDay cm.created_at ∧
      ctx.yesterdayStart = ctx.todayStart - MS_PER_DAY ∧
      ctx.requirements = buildRequirements helper
        (forcedDayMap helper messages ctx.yesterdayStart) ctx.todayStart
        ctx.yesterdayStart ctx.currentWeekStart ctx.currentMonthStart := by
  cases hl : messages.getLast? with
  | none =>
    unfold buildContext at h
    rw [hl] at h
    cases h
  | some cm =>
    unfold buildContext at h
    rw [hl] at h
    cases h
    refine ⟨cm, rfl, rfl, ?_, rfl⟩
    show TimeHelper.addDays (helper.startOfDay cm.created_at) (-1) =
      helper.startOfDay cm.created_at - MS_PER_DAY
    unfold TimeHelper.addDays
    ring

end PlannerLemmas

/-- C9: for every conversation context, the required DAY list contains exactly
the days strictly before today (equivalently, at or before yesterday) that lie at
or after the current week start, are not yesterday itself, and hold at least one
branch message; yesterday always yields a requirement — even with zero
messages — placed last in the ordered plan after months, weeks and the other
days; and months, weeks and days are each sorted ascending by period start. -/
theorem c9_required_days_and_ordering (helper : TimeHelper)
    (messages : List MessageRec) (ctx : ConversationContext)
    (h : buildContext helper messages = some ctx) :
    (∀ r ∈ ctx.requirements.days,
        r.level = .DAY ∧ ctx.currentWeekStart ≤ r.periodStart ∧
        r.periodStart ≤ ctx.yesterdayStart ∧ ¬ r.periodStart = ctx.yesterdayStart ∧
        ∃ m ∈ messages, helper.startOfDay m.created_at = r.periodStart) ∧
    (∀ m ∈ messages, ctx.currentWeekStart ≤ helper.startOfDay m.created_at →
        helper.startOfDay m.created_at < ctx.todayStart →
        ¬ helper.startOfDay m.created_at = ctx.yesterdayStart →
        ∃ r ∈ ctx.requirements.days,
          r.periodStart = helper.startOfDay m.created_at) ∧
    (∃ yq, ctx.requirements.yesterday = some yq ∧ yq.level = .DAY ∧
        yq.periodStart = ctx.yesterdayStart ∧
        ctx.requirements.ordered = ctx.requirements.months ++
          ctx.requirements.weeks ++ ctx.requirements.days ++ [yq]) ∧
    ((ctx.requirements.months.map Requirement.periodStart).Sorted (· ≤ ·) ∧
     (ctx.requirements.weeks.map Requirement.periodStart).Sorted (· ≤ ·) ∧
     (ctx.requirements.days.map Requirement.periodStart).Sorted (· ≤ ·)) := by
  obtain ⟨cm, hlast, htoday, hyest, hreq⟩ := buildContext_fields helper messages ctx h
  refine ⟨?_, ?_, ?_, ?_⟩
  · intro r hr
    rw [hreq] at hr
    obtain ⟨hl, hmem, hlt, hne, hcw⟩ := buildRequirements_days_sub helper
      (forcedDayMap helper messages ctx.yesterdayStart) ctx.todayStart
      ctx.yesterdayStart ctx.currentWeekStart ctx.currentMonthStart r hr
    rcases (mem_keys_forcedDayMap helper messages ctx.yesterdayStart
        r.periodStart).1 hmem with ⟨m, hm, hmk⟩ | hky
    · have h2 : helper.startOfDay m.created_at < helper.startOfDay cm.created_at := by
        rw [hmk, ← htoday]
        exact hlt
      have h3 := startOfDay_lt_imp_le_sub helper m.created_at cm.created_at h2
      rw [hmk, ← htoday, ← hyest] at h3
      exact ⟨hl, hcw, h3, hne, ⟨m, hm, hmk⟩⟩
    · exact absurd hky hne
  · intro m hm hcw hlt hne
    have hk : helper.startOfDay m.created_at ∈
        (forcedDayMap helper messages ctx.yesterdayStart).map Prod.fst :=
      (mem_keys_forcedDayMap helper messages ctx.yesterdayStart _).2
        (Or.inl ⟨m, hm, rfl⟩)
    obtain ⟨r, hr, hrk⟩ := buildRequirements_days_super helper
      (forcedDayMap helper messages ctx.yesterdayStart) ctx.todayStart
      ctx.yesterdayStart ctx.currentWeekStart ctx.currentMonthStart _ hk hlt hne hcw
    refine ⟨r, ?_, hrk⟩
    rw [hreq]
    exact hr
  · have hy : ctx.yesterdayStart ∈
        (forcedDayMap helper messages ctx.yesterdayStart).map Prod.fst :=
      (mem_keys_forcedDayMap helper messages ctx.yesterdayStart _).2 (Or.inr rfl)
    have hDpos : (0 : Int) < MS_PER_DAY := by norm_num [MS_PER_DAY]
    have hyt : ctx.yesterdayStart < ctx.todayStart := by
      rw [hyest]
      linarith
    obtain ⟨yq, hyq, hyl, hyp⟩ := buildRequirements_yesterday_isSome helper
      (forcedDayMap helper messages ctx.yesterdayStart) ctx.todayStart
      ctx.yesterdayStart ctx.currentWeekStart ctx.currentMonthStart hy hyt
    refine ⟨yq, by rw [hreq]; exact hyq, hyl, hyp, ?_⟩
    rw [hreq, buildRequirements_ordered_eq, hyq]
  · rw [hreq]
    exact buildRequirements_sorted helper _ _ _ _ _

theorem c9_required_days_and_ordering_witness :
    buildContext utcHelper c9msgs = some c9ctx ∧
    ((∀ r ∈ c9ctx.requirements.days,
        r.level = .DAY ∧ c9ctx.currentWeekStart ≤ r.periodStart ∧
        r.periodStart ≤ c9ctx.yesterdayStart ∧
        ¬ r.periodStart = c9ctx.yesterdayStart ∧
        ∃ m ∈ c9msgs, utcHelper.startOfDay m.created_at = r.periodStart) ∧
    (∀ m ∈ c9msgs, c9ctx.currentWeekStart ≤ utcHelper.startOfDay m.created_at →
        utcHelper.startOfDay m.created_at < c9ctx.todayStart →
        ¬ utcHelper.startOfDay m.created_at = c9ctx.yesterdayStart →
        ∃ r ∈ c9ctx.requirements.days,
          r.periodStart = utcHelper.startOfDay m.created_at) ∧
    (∃ yq, c9ctx.requirements.yesterday = some yq ∧ yq.level = .DAY ∧
        yq.periodStart = c9ctx.yesterdayStart ∧
        c9ctx.requirements.ordered = c9ctx.requirements.months ++
          c9ctx.requirements.weeks ++ c9ctx.requirements.days ++ [yq]) ∧
    ((c9ctx.requirements.months.map Requirement.periodStart).Sorted (· ≤ ·) ∧
     (c9ctx.requirements.weeks.map Requirement.periodStart).Sorted (· ≤ ·) ∧
     (c9ctx.requirements.days.map Requirement.periodStart).Sorted (· ≤ ·))) :=
  ⟨rfl, c9_required_days_and_ordering utcHelper c9msgs c9ctx rfl⟩

/-- C2 counterexample: on the branch `c2msgs` (one Saturday message, head on the
following Sunday) against an empty summary store, `composeContext` evaluates the
WEEK aggregate for the completed week BEFORE the DAY summary of that week's
Saturday, so the aggregate is built from an empty child set (the empty-week
placeholder) even though a required child DAY summary of the same run exists
afterwards: generation is not bottom-up. -/
theorem c2_bottom_up_counterexample :
    composeContextGeneration utcHelper c2msgs [] true = some c2out ∧
    c2out.processed =
      [(SummaryLevel.WEEK, c2weekStart), (SummaryLevel.DAY, c2yesterday)] ∧
    (lookupA c2out.summaryMap (SummaryLevel.WEEK, c2weekStart)).map
      (fun r => r.content) =
      some "No day-level summaries were available for this week." ∧
    (lookupA c2out.summaryMap (SummaryLevel.DAY, c2yesterday)).isSome = true := by
  refine ⟨rfl, ?_, ?_, ?_⟩ <;> decide

/-- C2 (amended): generation is top-down, not bottom-up — the ordered plan is a
block of non-DAY (month, then week) requirements followed by a block of DAY
requirements, and the generation loop processes the plan exactly in that order,
so every WEEK/MONTH aggregate is evaluated before every DAY summary of the run
and reads child DAY summaries only from the preloaded store. -/
theorem c2_topdown_processing (helper : TimeHelper)
    (dayMap : List (Int × List MessageRec)) (t y cw cm : Int)
    (reqs : List Requirement) (ancestryIds : List String)
    (currentMessageId : String) (wantsBullets : Bool) (st0 : GenState) :
    (∃ pre post, (buildRequirements helper dayMap t y cw cm).ordered = pre ++ post ∧
      (∀ r ∈ pre, ¬ r.level = .DAY) ∧ (∀ r ∈ post, r.level = .DAY)) ∧
    (runGeneration reqs ancestryIds currentMessageId wantsBullets st0).processed =
      st0.processed ++ reqs.map (fun r => (r.level, r.periodStart)) := by
  constructor
  · refine ⟨(buildRequirements helper dayMap t y cw cm).months ++
      (buildRequirements helper dayMap t y cw cm).weeks,
      (buildRequirements helper dayMap t y cw cm).days ++
      (match (buildRequirements helper dayMap t y cw cm).yesterday with
       | some yq => [yq]
       | none => []), ?_, ?_, ?_⟩
    · rw [buildRequirements_ordered_eq]
      simp [List.append_assoc]
    · intro r hr
      rcases List.mem_append.1 hr with hm | hw
      · rw [buildRequirements_months_level helper dayMap t y cw cm r hm]
        decide
      · rw [buildRequirements_weeks_level helper dayMap t y cw cm r hw]
        decide
    · intro r hr
      rcases List.mem_append.1 hr with hd | hy
      · exact (buildRequirements_days_sub helper dayMap t y cw cm r hd).1
      · cases hyq : (buildRequirements helper dayMap t y cw cm).yesterday with
        | none =>
          rw [hyq] at hy
          exact absurd hy (List.not_mem_nil r)
        | some yq =>
          rw [hyq] at hy
          have hryq : r = yq := List.mem_singleton.1 hy
          rw [hryq]
          exact (buildRequirements_yesterday_props helper dayMap t y cw cm yq hyq).1
  · exact runGeneration_processed ancestryIds currentMessageId wantsBullets reqs st0

end LifeCurrents
